import Mathlib

/-!
Verification of the Annal semantic-memory engine (heyhayes/annal).

Shallow embedding of the storage/query core: the ChromaDB and Qdrant backend
adapters, the `MemoryStore` business logic, the MCP `store_memory` dedup path,
and the file watcher's reconciliation loop.  Python strings are modelled as
Lean `String`s with explicit re-implementations of the Python primitives the
code relies on (lexicographic comparison, strip/lower, startswith), floats as
rationals, and the non-deterministic inputs (`uuid4`, `datetime.now`,
embedding vectors) as explicit parameters.
-/

namespace Annal

/-! ### Python string primitives -/

/-- ASCII whitespace stripped by Python `str.strip` (the code under
verification only meets ASCII whitespace here; Python would also strip other
Unicode whitespace). -/
def isPySpace (c : Char) : Bool :=
  c = ' ' || c = '\t' || c = '\n' || c = Char.ofNat 11 || c = Char.ofNat 12 || c = '\r'

/-- Python `str.strip()`. -/
def pyStrip (s : String) : String :=
  String.mk (((s.data.dropWhile isPySpace).reverse.dropWhile isPySpace).reverse)

/-- Python `str.lower()` (ASCII; the tags handled by the code are ASCII). -/
def pyLower (s : String) : String :=
  String.mk (s.data.map Char.toLower)

/-- Python string `<` on char lists: lexicographic by code point, a strict
prefix is smaller. -/
def pyLtL : List Char → List Char → Bool
  | [], [] => false
  | [], _ :: _ => true
  | _ :: _, [] => false
  | a :: as, b :: bs => if a < b then true else if b < a then false else pyLtL as bs

/-- Python string `<`. -/
def pyLt (a b : String) : Bool := pyLtL a.data b.data

/-- Prefix test on char lists. -/
def isPrefixL : List Char → List Char → Bool
  | [], _ => true
  | _ :: _, [] => false
  | a :: as, b :: bs => a = b && isPrefixL as bs

/-- Python `s.startswith(p)`. -/
def pyStartsWith (s p : String) : Bool := isPrefixL p.data s.data

/-! ### Data model

One memory record as held by a backend collection.  ChromaDB stores `tags` as
a JSON string and parses it back on read (`_serialize_meta`/`_deserialize_meta`
in src/src/annal/backends/chromadb.py are mutually inverse on string lists), so
the round trip is modelled as the identity and `tags` kept as a list. -/

structure Mem where
  id : String
  text : String
  vec : List ℚ
  tags : List String
  source : String
  chunkType : String
  createdAt : String
  updatedAt : Option String := none
  fileMtime : Option ℚ := none
  supersededBy : Option String := none
deriving Repr, DecidableEq

/-- A metadata value as read through `meta.get(key)` in Python. -/
inductive MetaVal
  | s (v : String)
  | sl (v : List String)
  | num (v : ℚ)
  | missing
deriving Repr, DecidableEq

/-- `meta.get(key)` over the fixed metadata schema of the data model. -/
def metaGet (m : Mem) : String → MetaVal
  | "tags" => .sl m.tags
  | "source" => .s m.source
  | "chunk_type" => .s m.chunkType
  | "created_at" => .s m.createdAt
  | "updated_at" => match m.updatedAt with | some u => .s u | none => .missing
  | "file_mtime" => match m.fileMtime with | some q => .num q | none => .missing
  | "superseded_by" => match m.supersededBy with | some u => .s u | none => .missing
  | _ => .missing

/-- The JSON-serializable view `MemoryStore._format_result` builds
(src/src/annal/store.py:349). -/
structure MemOut where
  id : String
  content : String
  tags : List String
  source : String
  chunkType : String
  createdAt : String
  updatedAt : String
deriving Repr, DecidableEq

/-- `MemoryStore._format_result` (src/src/annal/store.py:349): missing
`updated_at` becomes `""` via `meta.get("updated_at", "")`. -/
def formatResult (m : Mem) : MemOut :=
  { id := m.id
    content := m.text
    tags := m.tags
    source := m.source
    chunkType := m.chunkType
    createdAt := m.createdAt
    updatedAt := m.updatedAt.getD "" }

/-- Backend `get(ids)` (contract of `VectorBackend.get`, implemented by both
adapters): exact records for the requested ids, missing ids omitted without
error. -/
def backendGet (state : List Mem) (ids : List String) : List Mem :=
  ids.filterMap fun i => state.find? fun m => m.id == i

/-- `MemoryStore.get_by_ids` (src/src/annal/store.py:177). -/
def getByIds (state : List Mem) (ids : List String) : List MemOut :=
  if ids.isEmpty then [] else (backendGet state ids).map formatResult

/-- `MemoryStore.store` (src/src/annal/store.py:109).  `uuid.uuid4()` and
`datetime.now(timezone.utc).isoformat()` are modelled as the explicit `newId`
and `now` arguments; `self._embedder.embed(content)` as the `emb` argument;
the backend `insert` appends the record to the collection. -/
def storeMem (state : List Mem) (newId content : String) (emb : List ℚ)
    (tags : List String) (source chunkType : String) (fileMtime : Option ℚ)
    (now : String) : List Mem :=
  state ++ [{ id := newId, text := content, vec := emb, tags := tags,
              source := source, chunkType := chunkType, createdAt := now,
              fileMtime := fileMtime }]

/-! ### Tag normalization (src/src/annal/server.py:22) -/

/-- Loop body of `_normalize_tags`: strip, lowercase, drop empties, keep the
first occurrence of each distinct tag (the Python `seen` set always holds
exactly the elements of `result`). -/
def normalizeTagsAux : List String → List String → List String
  | [], acc => acc
  | t :: ts, acc =>
    let n := pyLower (pyStrip t)
    if n ≠ "" && !acc.contains n then normalizeTagsAux ts (acc ++ [n])
    else normalizeTagsAux ts acc

/-- `_normalize_tags` (src/src/annal/server.py:22) on a list input. -/
def normalizeTags (tags : List String) : List String := normalizeTagsAux tags []

/-! ### The filter grammar (where-clause DSL)

A Python where-clause maps a field name to either a literal (equality) or an
operator dict.  One operator dict may carry several operators at once (the
store combines `$gt` and `$lt` under `created_at`). -/

/-- An operator object of the where-clause DSL. -/
structure OpCond where
  containsAny : Option (List String) := none
  pfx : Option String := none
  gtB : Option String := none
  ltB : Option String := none
  notExists : Bool := false
deriving Repr, DecidableEq

inductive WhereVal
  | lit (v : MetaVal)
  | ops (c : OpCond)
deriving Repr, DecidableEq

/-- A where-clause: insertion-ordered key/value pairs (Python dict). -/
abbrev WhereClause := List (String × WhereVal)

/-! ### ChromaDB backend adapter (src/src/annal/backends/chromadb.py) -/

/-- `ChromaBackend._split_where` (chromadb.py:197): operator dicts all go to
the post-filter, literals are native equality filters. -/
def chromaSplitWhere : WhereClause → List (String × MetaVal) × List (String × OpCond)
  | [] => ([], [])
  | (k, .lit v) :: rest =>
    let (n, p) := chromaSplitWhere rest
    ((k, v) :: n, p)
  | (k, .ops c) :: rest =>
    let (n, p) := chromaSplitWhere rest
    (n, (k, c) :: p)

/-- A record passes ChromaDB's native equality filters (ChromaDB applies the
`where` dict as a conjunction of equalities during the query/get call). -/
def chromaNativePass (m : Mem) (native : List (String × MetaVal)) : Bool :=
  native.all fun kv => metaGet m kv.1 == kv.2

/-- One key's operator conditions of `ChromaBackend._passes_post_filters`
(chromadb.py:221).  Each present operator must pass; a type-mismatched value
fails the corresponding operator.  Note the source never checks
`$not_exists`: an operator dict containing only `$not_exists` passes
everything. -/
def chromaPassesOp (m : Mem) (key : String) (c : OpCond) : Bool :=
  let value := metaGet m key
  (match c.containsAny with
   | none => true
   | some ts => match value with
     | .sl l => ts.any fun t => l.contains t
     | _ => false) &&
  (match c.pfx with
   | none => true
   | some p => match value with
     | .s v => pyStartsWith v p
     | _ => false) &&
  (match c.gtB with
   | none => true
   | some b => match value with
     | .s v => pyLt b v
     | _ => false) &&
  (match c.ltB with
   | none => true
   | some b => match value with
     | .s v => pyLt v b
     | _ => false)

/-- `ChromaBackend._passes_post_filters` (chromadb.py:221). -/
def chromaPassesPost (m : Mem) (post : List (String × OpCond)) : Bool :=
  post.all fun kc => chromaPassesOp m kc.1 kc.2

/-- Number of nearest neighbours `ChromaBackend.query` requests
(chromadb.py:60-64): `limit * 3` under a post-filter, clamped by
`min(n, total) or 1` where `total` is the collection size. -/
def chromaNRequested (limit : Nat) (hasPost : Bool) (total : Nat) : Nat :=
  let n := if hasPost then limit * 3 else limit
  if min n total = 0 then 1 else min n total

/-- Stable insertion of `a` into `l` assuming `le` keeps sorted order. -/
def insSorted (le : α → α → Bool) (a : α) : List α → List α
  | [] => [a]
  | b :: bs => if le a b then a :: b :: bs else b :: insSorted le a bs

/-- Stable insertion sort; models the backend returning candidates in
ascending-distance order (tie order is an implementation detail of the real
index; any stable order satisfies the contract the store relies on). -/
def insSortBy (le : α → α → Bool) : List α → List α
  | [] => []
  | a :: as => insSorted le a (insSortBy le as)

/-- `ChromaBackend.query` (chromadb.py:51): apply native equality filters,
take the `n_results` nearest neighbours of `emb` by the distance function
`dist`, apply the post-filter, truncate to `limit`.  Results carry their
distance. -/
def chromaQuery (state : List Mem) (emb : List ℚ) (limit : Nat)
    (w : WhereClause) (dist : List ℚ → List ℚ → ℚ) : List (Mem × ℚ) :=
  if state.length = 0 then []
  else
    let np := chromaSplitWhere w
    let nRes := chromaNRequested limit (!np.2.isEmpty) state.length
    let candidates := state.filter fun m => chromaNativePass m np.1
    let sorted := insSortBy (fun a b => decide (dist emb a.vec ≤ dist emb b.vec)) candidates
    let kept := (sorted.take nRes).filter fun m => chromaPassesPost m np.2
    (kept.take limit).map fun m => (m, dist emb m.vec)

/-- Number of loop iterations of `range(0, total, step)` in Python
(`step > 0`). -/
def numBatches (total step : Nat) : Nat := (total + step - 1) / step

/-- The batched scan-and-post-filter loop shared by `ChromaBackend.scan`
(chromadb.py:126, batches of 5000) and `QdrantBackend.scan`'s scroll loop
(qdrant.py:196, pages of 100): each batch is a page of the natively filtered
collection, post-filtered and appended. -/
def chunkFilter (p : α → Bool) (step : Nat) : Nat → List α → List α
  | 0, _ => []
  | n + 1, l => (l.take step).filter p ++ chunkFilter p step n (l.drop step)

/-- `ChromaBackend.scan` (chromadb.py:94): fast path pages natively, slow
path walks the whole collection in batches of 5000 and computes the filtered
total. -/
def chromaScan (state : List Mem) (offset limit : Nat) (w : WhereClause) :
    List Mem × Nat :=
  if state.length = 0 then ([], 0)
  else
    let np := chromaSplitWhere w
    let natF := state.filter fun m => chromaNativePass m np.1
    if np.2.isEmpty then
      let total := if np.1.isEmpty then state.length else natF.length
      ((natF.drop offset).take limit, total)
    else
      let allItems := chunkFilter (fun m => chromaPassesPost m np.2) 5000
        (numBatches state.length 5000) natF
      ((allItems.drop offset).take limit, allItems.length)

/-! ### Date-bound validation and normalization (src/src/annal/store.py:14) -/

/-- Acceptance of `_ISO_DATE_RE` = `^\d{4}-\d{2}-\d{2}(T\d{2}:\d{2}:\d{2})?`
under `re.match` (prefix-anchored): the string is accepted iff its first ten
characters are digit-shaped `YYYY-MM-DD`.  The optional time group can only
extend the match, never make it fail, and everything after the match is
ignored, so neither the time shape nor any trailing text affects acceptance. -/
def isoShapeOkL : List Char → Bool
  | y1 :: y2 :: y3 :: y4 :: '-' :: m1 :: m2 :: '-' :: d1 :: d2 :: _ =>
    y1.isDigit && y2.isDigit && y3.isDigit && y4.isDigit &&
    m1.isDigit && m2.isDigit && d1.isDigit && d2.isDigit
  | _ => false

def isoShapeOk (s : String) : Bool := isoShapeOkL s.data

/-- `_normalize_date_bound` (src/src/annal/store.py:17). -/
def normalizeDateBound (value : String) (endOfDay : Bool) : Option String :=
  if isoShapeOk value = false then none
  else if value.data.contains 'T' then some value
  else some (value ++ (if endOfDay then "T23:59:59" else "T00:00:00"))

/-! ### MemoryStore filter building and search (src/src/annal/store.py) -/

/-- First-occurrence deduplication; stands in for Python `set` construction
where only membership matters downstream (`$contains_any` is
order-insensitive). -/
def dedupFirst : List String → List String
  | [] => []
  | t :: ts => t :: (dedupFirst ts).filter fun u => u ≠ t

/-- `MemoryStore._expand_tags` (src/src/annal/store.py:59).  The fuzzy
predicate `fuzzy ft kt` stands for "both embeddings have nonzero norm and
their cosine similarity is ≥ 0.72" — cosine similarity involves a square
root, so it is kept as an opaque Boolean relation supplied by the caller.
The known tags are the keys of `list_topics()`; the Python function returns
a `set`, modelled as a duplicate-free list since only membership is consumed
(via `$contains_any`). -/
def expandTags (fuzzy : String → String → Bool) (known : List String)
    (filterTags : List String) : List String :=
  if known.isEmpty then dedupFirst filterTags
  else
    let base := dedupFirst filterTags
    base ++ (known.filter fun kt => !base.contains kt && filterTags.any fun ft => fuzzy ft kt)

/-- Keys of `MemoryStore.list_topics` (src/src/annal/store.py:279): every tag
occurring on any record, first occurrence order. -/
def knownTags (state : List Mem) : List String :=
  dedupFirst (state.map (·.tags)).flatten

/-- `MemoryStore._build_where` (src/src/annal/store.py:84).  Python truthiness:
`None` and `""` (and an empty tag list) all skip their filter.  `$gt`/`$lt`
share one operator dict under `created_at`. -/
def buildWhere (fuzzy : String → String → Bool) (state : List Mem)
    (chunkType srcPfx : Option String) (tags : Option (List String))
    (after before : Option String) : WhereClause :=
  let w1 : WhereClause := match chunkType with
    | some ct => if ct ≠ "" then [("chunk_type", .lit (.s ct))] else []
    | none => []
  let w2 : WhereClause := match srcPfx with
    | some sp => if sp ≠ "" then [("source", .ops { pfx := some sp })] else []
    | none => []
  let w3 : WhereClause := match tags with
    | some ts =>
      if ts ≠ [] then
        [("tags", .ops { containsAny := some (expandTags fuzzy (knownTags state) ts) })]
      else []
    | none => []
  let aB : Option String := match after with
    | some a => if a ≠ "" then some a else none
    | none => none
  let bB : Option String := match before with
    | some b => if b ≠ "" then some b else none
    | none => none
  let w4 : WhereClause :=
    if aB.isSome || bB.isSome then [("created_at", .ops { gtB := aB, ltB := bB })] else []
  w1 ++ w2 ++ w3 ++ w4

/-- One search result as produced by `MemoryStore.search`
(src/src/annal/store.py:159). -/
structure SearchHit where
  id : String
  content : String
  tags : List String
  source : String
  chunkType : String
  score : ℚ
  distance : ℚ
  createdAt : String
  updatedAt : String
deriving Repr, DecidableEq

/-- Conversion of one backend result in `MemoryStore.search`: the model's
backend always reports a distance, `score = 1 - distance`. -/
def toSearchHit (md : Mem × ℚ) : SearchHit :=
  { id := md.1.id
    content := md.1.text
    tags := md.1.tags
    source := md.1.source
    chunkType := md.1.chunkType
    score := 1 - md.2
    distance := md.2
    createdAt := md.1.createdAt
    updatedAt := md.1.updatedAt.getD "" }

/-- The post-validation body of `MemoryStore.search`: return `[]` on an
empty collection, otherwise embed the query, build the where-clause, query
the backend and truncate to `limit`. -/
def searchCore (E : String → List ℚ) (dist : List ℚ → List ℚ → ℚ)
    (fuzzy : String → String → Bool) (state : List Mem) (query : String)
    (limit : Nat) (tags : Option (List String))
    (afterN beforeN : Option String) : List SearchHit :=
  if state.length = 0 then []
  else
    let emb := E query
    let w := buildWhere fuzzy state none none tags afterN beforeN
    let results := chromaQuery state emb limit w dist
    (results.map toSearchHit).take limit

/-- A date bound the validation in `MemoryStore.search` accepts: absent,
empty (falsy, skipped unvalidated), or matching the prefix regex. -/
def dateBoundAccepted (o : Option String) : Prop :=
  ∀ a, o = some a → a = "" ∨ isoShapeOk a = true

/-- `MemoryStore.search` (src/src/annal/store.py:131) over the ChromaDB
backend model: validate and normalize the date bounds (raising `ValueError`,
modelled as `Except.error`, before any backend or embedder access), then run
`searchCore`.  `E` is the embedder, `dist` the backend's distance, `fuzzy`
the fuzzy-tag relation. -/
def annalSearch (E : String → List ℚ) (dist : List ℚ → List ℚ → ℚ)
    (fuzzy : String → String → Bool) (state : List Mem) (query : String)
    (limit : Nat) (tags : Option (List String)) (after before : Option String) :
    Except String (List SearchHit) :=
  let afterRes : Except String (Option String) := match after with
    | some a =>
      if a ≠ "" then
        match normalizeDateBound a false with
        | some n => .ok (some n)
        | none => .error ("Invalid date format for 'after': expected ISO 8601, got '" ++ a ++ "'")
      else .ok (some a)
    | none => .ok none
  let beforeRes : Except String (Option String) := match before with
    | some b =>
      if b ≠ "" then
        match normalizeDateBound b true with
        | some n => .ok (some n)
        | none => .error ("Invalid date format for 'before': expected ISO 8601, got '" ++ b ++ "'")
      else .ok (some b)
    | none => .ok none
  match afterRes, beforeRes with
  | .error e, _ => .error e
  | .ok _, .error e => .error e
  | .ok afterN, .ok beforeN =>
    .ok (searchCore E dist fuzzy state query limit tags afterN beforeN)

/-- `MemoryStore.browse` (src/src/annal/store.py:312) over the ChromaDB
backend model (no date filters; same filter composition as search). -/
def annalBrowse (fuzzy : String → String → Bool) (state : List Mem)
    (offset limit : Nat) (chunkType srcPfx : Option String)
    (tags : Option (List String)) : List MemOut × Nat :=
  if state.length = 0 then ([], 0)
  else
    let w := buildWhere fuzzy state chunkType srcPfx tags none none
    let rt := chromaScan state offset limit w
    (rt.1.map formatResult, rt.2)

/-! ### The `store_memory` dedup path (src/src/annal/server.py:205) -/

inductive StoreOutcome
  | skipped (score : ℚ) (dupId : String)
  | stored (newId : String)
deriving Repr, DecidableEq

/-- `store_memory` (src/src/annal/server.py:205): normalize tags, search the
store with the content itself (limit 10, no filters), skip if any candidate
is an `agent-memory` whose score exceeds 0.95 (the Python comparison is
strict `>`), otherwise store.  The search cannot raise here (no date bounds),
so the unreachable error branch yields the empty candidate list. -/
def storeMemoryTool (E : String → List ℚ) (dist : List ℚ → List ℚ → ℚ)
    (fuzzy : String → String → Bool) (state : List Mem) (content : String)
    (tagsIn : List String) (source newId now : String) :
    List Mem × StoreOutcome :=
  let tags := normalizeTags tagsIn
  let existing := match annalSearch E dist fuzzy state content 10 none none none with
    | .ok r => r
    | .error _ => []
  match existing.find? (fun c => c.chunkType == "agent-memory" && decide ((95 : ℚ)/100 < c.score)) with
  | some c => (state, .skipped c.score c.id)
  | none =>
    (storeMem state newId content (E content) tags source "agent-memory" none now,
     .stored newId)

/-! ### Qdrant backend adapter (src/src/annal/backends/qdrant.py)

A Qdrant point holds the low-level UUID id, named vectors and a payload dict.
`_to_uuid` (uuid5 hashing of non-UUID ids) is kept as an opaque deterministic
function argument `toUuid`, and the server-side BM25 sparse embedding as the
opaque `bm25`. -/

/-- Python dict lookup. -/
def dictGet (d : List (String × MetaVal)) (k : String) : Option MetaVal :=
  (d.find? fun kv => kv.1 == k).map (·.2)

/-- Python dict assignment `d[k] = v`: replace in place, else append. -/
def dictSet (d : List (String × MetaVal)) (k : String) (v : MetaVal) :
    List (String × MetaVal) :=
  if d.any (fun kv => kv.1 == k) then
    d.map fun kv => if kv.1 == k then (k, v) else kv
  else d ++ [(k, v)]

/-- `payload.get(k, "")` coerced to a string; the source applies string
operations directly, which would fail on a non-string payload value — such
filters are never built by the store layer. -/
def dictGetStr (d : List (String × MetaVal)) (k : String) : String :=
  match dictGet d k with
  | some (.s v) => v
  | _ => ""

structure QPoint where
  uid : String
  vecs : List (String × List ℚ)
  payload : List (String × MetaVal)
deriving Repr, DecidableEq

structure QdrantState where
  points : List QPoint
deriving Repr, DecidableEq

/-- `QdrantClient.upsert` of a single point: replace the point with the same
uid, else append. -/
def qdrantUpsert (points : List QPoint) (p : QPoint) : List QPoint :=
  if points.any (fun q => q.uid == p.uid) then
    points.map fun q => if q.uid == p.uid then p else q
  else points ++ [p]

/-- `QdrantBackend.update` (src/src/annal/backends/qdrant.py:79).  When both
`metadata` and `text` are `None` the whole body is skipped: no existence
check, no write, no error — regardless of `embedding`.  Otherwise the current
payload is fetched (NotFound error if the uid is absent), merged, and either
upserted with a fresh vector or written via `set_payload` (which merges keys
into the existing payload). -/
def qdrantUpdate (toUuid : String → String) (hybrid : Bool)
    (bm25 : String → List ℚ) (st : QdrantState) (id : String)
    (text : Option String) (embedding : Option (List ℚ))
    (metadata : Option (List (String × MetaVal))) : Except String QdrantState :=
  if metadata.isSome || text.isSome then
    let uid := toUuid id
    match st.points.find? fun p => p.uid == uid with
    | none => .error ("Document " ++ id ++ " not found")
    | some old =>
      let oldPayload := old.payload
      let base := match metadata with
        | some m => m
        | none => oldPayload.filter fun kv => kv.1 ≠ "text" && kv.1 ≠ "_annal_id"
      let newText := match text with
        | some t => t
        | none => dictGetStr oldPayload "text"
      let newPayload := dictSet (dictSet base "text" (.s newText)) "_annal_id" (.s id)
      match embedding with
      | some e =>
        let vec := if hybrid then [("dense", e), ("bm25", bm25 newText)] else [("", e)]
        .ok ⟨qdrantUpsert st.points ⟨uid, vec, newPayload⟩⟩
      | none =>
        .ok ⟨st.points.map fun p =>
          if p.uid == uid then
            { p with payload := newPayload.foldl (fun acc kv => dictSet acc kv.1 kv.2) p.payload }
          else p⟩
  else .ok st

/-- `QdrantBackend._split_where` (qdrant.py:294): equality and
`$contains_any` are native, every other operator is post-filtered. -/
def qdrantSplitWhere : WhereClause → WhereClause × WhereClause
  | [] => ([], [])
  | (k, .lit v) :: rest =>
    let (n, p) := qdrantSplitWhere rest
    ((k, .lit v) :: n, p)
  | (k, .ops c) :: rest =>
    let (n, p) := qdrantSplitWhere rest
    if c.containsAny.isSome then ((k, .ops c) :: n, p) else (n, (k, .ops c) :: p)

/-- A point passes the Qdrant-native filter built by `_build_filter`
(qdrant.py:316): `MatchValue` equality and `MatchAny` list-overlap, as a
conjunction of `must` conditions; an operator dict without `$contains_any`
contributes no condition. -/
def qdrantNativePass (p : QPoint) (native : WhereClause) : Bool :=
  native.all fun kv =>
    match kv.2 with
    | .lit v => dictGet p.payload kv.1 == some v
    | .ops c => match c.containsAny with
      | some ts => match dictGet p.payload kv.1 with
        | some (.sl l) => ts.any fun t => l.contains t
        | _ => false
      | none => true

/-- `QdrantBackend._to_result`'s score-to-distance mapping (qdrant.py:360):
scroll records carry no score (`none`); in RRF mode a positive fused score is
inverted, a non-positive one clamped to 0; otherwise `1 - score`. -/
def qdrantResultDistance (rrf : Bool) (score : Option ℚ) : Option ℚ :=
  match score with
  | none => none
  | some s => if rrf then (if 0 < s then some (1 / s) else some 0) else some (1 - s)

/-- A backend result as returned by `QdrantBackend._to_result`
(qdrant.py:354): `text` and `_annal_id` are popped from the payload. -/
structure QRes where
  id : String
  text : String
  meta : List (String × MetaVal)
  distance : Option ℚ
deriving Repr, DecidableEq

def qdrantToResult (rrf : Bool) (score : Option ℚ) (p : QPoint) : QRes :=
  { id := dictGetStr p.payload "_annal_id"
    text := dictGetStr p.payload "text"
    meta := p.payload.filter fun kv => kv.1 ≠ "text" && kv.1 ≠ "_annal_id"
    distance := qdrantResultDistance rrf score }

/-- `QdrantBackend._matches_post_filter` (qdrant.py:338):
`result.metadata.get(key, "")` compared with Python string operations. -/
def qdrantMatchesPost (r : QRes) (post : WhereClause) : Bool :=
  post.all fun kv =>
    match kv.2 with
    | .lit _ => true
    | .ops c =>
      let val := dictGetStr r.meta kv.1
      (match c.pfx with
       | none => true
       | some p => pyStartsWith val p) &&
      (match c.gtB with
       | none => true
       | some b => pyLt b val) &&
      (match c.ltB with
       | none => true
       | some b => pyLt val b)

/-- `fetch_limit` in `QdrantBackend.query` (qdrant.py:139): `limit * 3` when
a post-filter is present, with no cap of any kind. -/
def qdrantFetchLimit (limit : Nat) (hasPost : Bool) : Nat :=
  if hasPost then limit * 3 else limit

/-- `QdrantBackend.query` (qdrant.py:133).  The server's ranking is modelled
by `scoreOf`: the points passing the native filter come back best-score
first (`query_points` returns at most `fetch_limit` of them); each is
converted by `_to_result`, post-filtered, and truncated to `limit`. -/
def qdrantQuery (st : QdrantState) (scoreOf : QPoint → ℚ) (rrf : Bool)
    (limit : Nat) (w : WhereClause) : List QRes :=
  let np := qdrantSplitWhere w
  let fetch := qdrantFetchLimit limit (!np.2.isEmpty)
  let candidates := st.points.filter fun p => qdrantNativePass p np.1
  let ranked := insSortBy (fun a b => decide (scoreOf b ≤ scoreOf a)) candidates
  let items := (ranked.take fetch).map fun p => qdrantToResult rrf (some (scoreOf p)) p
  let kept := if np.2.isEmpty then items else items.filter fun r => qdrantMatchesPost r np.2
  kept.take limit

/-- `QdrantBackend.scan`'s post-filter path (qdrant.py:196): scroll the
natively filtered collection in pages of 100, convert and post-filter each
record, slice `[offset : offset+limit]` of the matches and report their
count as the total.  (The cursor-based no-post path is not modelled; no
claim depends on it.) -/
def qdrantScanPost (st : QdrantState) (offset limit : Nat) (w : WhereClause) :
    List QRes × Nat :=
  let np := qdrantSplitWhere w
  let natF := st.points.filter fun p => qdrantNativePass p np.1
  let allResults := chunkFilter (fun r => qdrantMatchesPost r np.2) 100
    (numBatches natF.length 100) (natF.map fun p => qdrantToResult false none p)
  ((allResults.drop offset).take limit, allResults.length)

/-! ### Glob matching (src/src/annal/watcher.py:21-59)

`fnmatch.fnmatch` on POSIX: `os.path.normcase` is the identity, `*` matches
any run of characters including `/`, `?` any single character, `[...]` a
character class (leading `!` negates, a leading `]` is a literal member, an
unmatched `[` is a literal). -/

/-- Character-class membership with `a-b` ranges. -/
def classMatches : List Char → Char → Bool
  | a :: '-' :: b :: rest, c => (a ≤ c && c ≤ b) || classMatches rest c
  | a :: rest, c => (a = c) || classMatches rest c
  | [], _ => false

/-- Split a class body (the chars after `[` and the optional `!`) into the
class chars and the remainder after the closing `]`; `none` if unclosed. -/
def splitClass (l : List Char) : Option (List Char × List Char) :=
  match l with
  | ']' :: rest =>
    let cls := rest.takeWhile fun c => c ≠ ']'
    match rest.dropWhile fun c => c ≠ ']' with
    | ']' :: rem => some (']' :: cls, rem)
    | _ => none
  | _ =>
    let cls := l.takeWhile fun c => c ≠ ']'
    match l.dropWhile fun c => c ≠ ']' with
    | ']' :: rem => some (cls, rem)
    | _ => none

/-- `fnmatch.fnmatch` pattern matching (pattern, then subject). -/
def globMatchL : List Char → List Char → Bool
  | [], [] => true
  | [], _ :: _ => false
  | '*' :: ps, s =>
    globMatchL ps s ||
      (match s with
       | [] => false
       | _ :: srest => globMatchL ('*' :: ps) srest)
  | '?' :: ps, s =>
    (match s with
     | [] => false
     | _ :: srest => globMatchL ps srest)
  | '[' :: ps, s =>
    let nb : Bool × List Char := match ps with
      | '!' :: rest => (true, rest)
      | _ => (false, ps)
    (match splitClass nb.2 with
     | none =>
       match s with
       | c :: srest => c = '[' && globMatchL ps srest
       | [] => false
     | some cr =>
       match s with
       | c :: srest => (classMatches cr.1 c != nb.1) && globMatchL cr.2 srest
       | [] => false)
  | c :: ps, s =>
    (match s with
     | d :: srest => c = d && globMatchL ps srest
     | [] => false)
termination_by p s => (s.length, p.length)

/-- `fnmatch.fnmatch(rel_path, pattern)`. -/
def fnMatch (relPath pattern : String) : Bool := globMatchL pattern.data relPath.data

def pyEndsWith (s p : String) : Bool := isPrefixL p.data.reverse s.data.reverse

/-- `_glob_match` (src/src/annal/watcher.py:38): `**/`-prefixed patterns also
try the bare suffix against every sub-path, `/**`-suffixed patterns are a
directory-prefix test, everything else is plain fnmatch. -/
def globMatchPath (relPath pattern : String) : Bool :=
  if pyStartsWith pattern "**/" then
    let sfx := String.mk (pattern.data.drop 3)
    if fnMatch relPath pattern || fnMatch relPath sfx then true
    else
      let parts := relPath.splitOn "/"
      (List.range parts.length).any fun i =>
        fnMatch (String.intercalate "/" (parts.drop i)) sfx
  else if pyEndsWith pattern "/**" then
    let pre := String.mk (pattern.data.take (pattern.data.length - 3))
    relPath == pre || pyStartsWith relPath (pre ++ "/")
  else fnMatch relPath pattern

/-- `matches_patterns` (src/src/annal/watcher.py:21); on POSIX the
`os.sep` replacement is the identity. -/
def matchesPatterns (relPath : String) (patterns excludes : List String) : Bool :=
  if excludes.any fun e => globMatchPath relPath e then false
  else patterns.any fun p => globMatchPath relPath p

/-! ### Chunking (src/src/annal/indexer.py) -/

structure Chunk where
  heading : String
  content : String
deriving Repr, DecidableEq

/-- `pathlib.Path(path).name`. -/
def fileName (path : String) : String := ((path.splitOn "/").getLast?).getD ""

/-- `pathlib.Path(path).suffix`: the final component's last suffix; empty for
hidden files, trailing dots, and names without a dot. -/
def fileSuffix (path : String) : String :=
  let rev := (fileName path).data.reverse
  let ext := rev.takeWhile fun c => c ≠ '.'
  if ext.length = 0 then ""
  else if ext.length = rev.length then ""
  else if ext.length + 1 = rev.length then ""
  else String.mk ('.' :: ext.reverse)

/-- `re.match(r"^(#{1,6})\s+(.+)$", line)` in `chunk_markdown`: 1-6 leading
hashes, at least one whitespace, at least one further character; the captured
heading is then stripped, which collapses to stripping everything after the
hashes. -/
def parseHeading (line : String) : Option (Nat × String) :=
  let cs := line.data
  let hashes := cs.takeWhile fun c => c = '#'
  let rest := cs.dropWhile fun c => c = '#'
  if 1 ≤ hashes.length ∧ hashes.length ≤ 6 then
    match rest with
    | c :: _ :: _ =>
      if isPySpace c then some (hashes.length, pyStrip (String.mk rest)) else none
    | _ => none
  else none

/-- Heading-stack state of `chunk_markdown` (src/src/annal/indexer.py:11);
the stack holds (heading text, level) pairs, top first. -/
structure MdState where
  chunks : List Chunk
  currentContent : List String
  stack : List (String × Nat)
  currentHeading : String
  lastHeadingText : String

/-- `while heading_levels and heading_levels[-1] >= level: pop`. -/
def popWhileGe (level : Nat) : List (String × Nat) → List (String × Nat)
  | (h, lv) :: rest => if level ≤ lv then popWhileGe level rest else (h, lv) :: rest
  | [] => []

/-- One line of the `chunk_markdown` loop. -/
def mdStep (filename : String) (st : MdState) (line : String) : MdState :=
  match parseHeading line with
  | some lv =>
    let text := pyStrip (String.intercalate "\n" st.currentContent)
    let chunks2 :=
      if text ≠ "" then st.chunks ++ [⟨st.currentHeading, text⟩]
      else if st.lastHeadingText ≠ "" then st.chunks ++ [⟨st.currentHeading, st.lastHeadingText⟩]
      else st.chunks
    let stack2 := popWhileGe lv.1 st.stack
    if 1 < lv.1 then
      let stack3 := (lv.2, lv.1) :: stack2
      { chunks := chunks2, currentContent := [], stack := stack3,
        currentHeading := filename ++ " > " ++ String.intercalate " > " (stack3.reverse.map (·.1)),
        lastHeadingText := lv.2 }
    else
      { chunks := chunks2, currentContent := [], stack := [],
        currentHeading := filename ++ " > " ++ lv.2,
        lastHeadingText := lv.2 }
  | none => { st with currentContent := st.currentContent ++ [line] }

/-- `chunk_markdown` (src/src/annal/indexer.py:11). -/
def chunkMarkdown (content filename : String) : List Chunk :=
  let lines := content.splitOn "\n"
  let st := lines.foldl (mdStep filename) ⟨[], [], [], filename, ""⟩
  let text := pyStrip (String.intercalate "\n" st.currentContent)
  if text ≠ "" then st.chunks ++ [⟨st.currentHeading, text⟩]
  else if st.lastHeadingText ≠ "" then st.chunks ++ [⟨st.currentHeading, st.lastHeadingText⟩]
  else st.chunks

/-- `chunk_config_file` (src/src/annal/indexer.py:65). -/
def chunkConfigFile (content filename : String) : List Chunk :=
  [⟨filename, pyStrip content⟩]

/-- Substring containment, Python `sub in s`. -/
def containsSubL (sub : List Char) : List Char → Bool
  | [] => isPrefixL sub []
  | c :: rest => isPrefixL sub (c :: rest) || containsSubL sub rest

def containsSub (s sub : String) : Bool := containsSubL sub.data s.data

/-- `_derive_tags` (src/src/annal/indexer.py:109). -/
def deriveTags (path : String) : List String :=
  let nameLower := pyLower (fileName path)
  let t1 := ["indexed"]
  let t2 :=
    if containsSub nameLower "claude" || containsSub nameLower "agent" then t1 ++ ["agent-config"]
    else t1
  if containsSub nameLower "readme" then t2 ++ ["docs"] else t2

/-- `MemoryStore.delete_by_source` (src/src/annal/store.py:286): remove every
record whose source starts with the prefix (collect ids, then batch delete). -/
def deleteBySource (state : List Mem) (pre : String) : List Mem :=
  state.filter fun m => !pyStartsWith m.source pre

/-- `index_file` (src/src/annal/indexer.py:70): blank files are a no-op
(previous chunks are NOT deleted), otherwise delete the file's previous
chunks and store one record per chunk (markdown split by headings, config
files whole, anything else one raw chunk).  `mkId i` supplies the uuid of
the i-th chunk; files reaching this model exist (reconcile walked them), and
`file_mtime` is always supplied by the caller. -/
def indexFile (mkId : Nat → String) (E : String → List ℚ) (now : String)
    (state : List Mem) (filePath content : String) (fileMtime : ℚ) :
    List Mem × Nat :=
  if pyStrip content = "" then (state, 0)
  else
    let afterDelete := deleteBySource state ("file:" ++ filePath)
    let sfx := pyLower (fileSuffix filePath)
    let chunks :=
      if sfx = ".md" then chunkMarkdown content (fileName filePath)
      else if sfx = ".json" || sfx = ".yaml" || sfx = ".yml" || sfx = ".toml" then
        chunkConfigFile content (fileName filePath)
      else [⟨fileName filePath, content⟩]
    let tags := deriveTags filePath
    let newMems := (chunks.zip (List.range chunks.length)).map fun ci =>
      ({ id := mkId ci.2, text := ci.1.content, vec := E ci.1.content, tags := tags,
         source := "file:" ++ filePath ++ "|" ++ ci.1.heading, chunkType := "file-indexed",
         createdAt := now, fileMtime := some fileMtime } : Mem)
    (afterDelete ++ newMems, chunks.length)

/-- `MemoryStore.get_file_mtime` as called by `FileWatcher.reconcile`
(src/src/annal/watcher.py:125).  The method is absent from the annal
`MemoryStore` under src/; its behaviour is taken from the predecessor
implementation shipped in src/src/memex/store.py:106: the `file_mtime` of
the first chunk whose source starts with the prefix (`None` when no chunk
matches or the first matching chunk has no mtime). -/
def getFileMtime (state : List Mem) (pre : String) : Option ℚ :=
  match state.find? fun m => pyStartsWith m.source pre with
  | some m => m.fileMtime
  | none => none

/-! ### FileWatcher.reconcile (src/src/annal/watcher.py:107) -/

/-- One file as seen by the reconcile walk: absolute path, path relative to
the watch root, filesystem mtime (float, modelled as ℚ), and content. -/
structure FileEntry where
  path : String
  rel : String
  mtime : ℚ
  content : String
deriving Repr, DecidableEq

structure RecResult where
  store : List Mem
  total : Nat
  skipped : Nat
deriving Repr, DecidableEq

/-- One iteration of the reconcile walk over a non-directory path: pattern
check, mtime comparison against the stored chunks (skip when the stored
mtime exists and differs by less than 0.5 seconds), else (re)index and count
the file. -/
def reconcileStep (patterns excludes : List String) (mkId : String → Nat → String)
    (E : String → List ℚ) (now : String) (st : RecResult) (f : FileEntry) :
    RecResult :=
  if matchesPatterns f.rel patterns excludes then
    let skip : Bool := match getFileMtime st.store ("file:" ++ f.path) with
      | some sd => decide (|sd - f.mtime| < 1/2)
      | none => false
    if skip then { st with skipped := st.skipped + 1 }
    else
      let r := indexFile (mkId f.path) E now st.store f.path f.content f.mtime
      { store := r.1, total := st.total + 1, skipped := st.skipped }
  else st

/-- `FileWatcher.reconcile` (src/src/annal/watcher.py:107) over the files
walked from the watch paths (directories and missing roots are already
excluded by the walk; the progress callback does not affect the store). -/
def reconcileModel (patterns excludes : List String) (mkId : String → Nat → String)
    (E : String → List ℚ) (now : String) (state : List Mem)
    (files : List FileEntry) : RecResult :=
  files.foldl (reconcileStep patterns excludes mkId E now) ⟨state, 0, 0⟩

/-! ### Supersession (modelled from the spec)

The `MemoryStore` shipped under src/src/annal/store.py has no `supersedes`
parameter on `store` and no `include_superseded` flag on `browse`, yet
tests/test_store.py and the dashboard exercise both (the tests also import
`BatchItem`, equally absent) — the shipped store is missing this part of the
implementation, so it is modelled from the spec here. -/

/-- Modelled from the spec: `store(..., supersedes?)` — "if `supersedes`
names an existing id, sets that record's `superseded_by` to the new id
(silently no-ops if the id doesn't exist — do not fail the new store)";
missing from `MemoryStore.store` under src/.  The insert itself is the
`storeMem` embedding of src/src/annal/store.py:109. -/
def storeWithSupersedes (state : List Mem) (newId content : String)
    (emb : List ℚ) (tags : List String) (source now : String)
    (supersedes : Option String) : List Mem :=
  let marked := match supersedes with
    | none => state
    | some old =>
      state.map fun m => if m.id == old then { m with supersededBy := some newId } else m
  storeMem marked newId content emb tags source "agent-memory" none now

/-- Modelled from the spec: `browse(offset, limit, include_superseded)` —
"superseded exclusion is `superseded_by $not_exists` unless
`include_superseded`" on top of the paginated listing of
src/src/annal/store.py:312; the flag is missing from `browse` under src/. -/
def browseWithSuperseded (state : List Mem) (offset limit : Nat)
    (includeSuperseded : Bool) : List MemOut × Nat :=
  let visible := if includeSuperseded then state
    else state.filter fun m => m.supersededBy.isNone
  (((visible.drop offset).take limit).map formatResult, visible.length)

/-! ### Spec-side reference definitions -/

/-- Follows the spec's words, not the code: a value "parses as an ISO-8601
date or datetime prefix" only if its leading `YYYY-MM-DD` is a real calendar
date.  This validator checks the necessary conditions month ∈ 1..12 and
day ∈ 1..31 on top of the digit shape (month-specific day counts would only
reject more), for comparison with the code's shape-only regex. -/
def specIsoDateValid (s : String) : Bool :=
  match s.data with
  | y1 :: y2 :: y3 :: y4 :: '-' :: m1 :: m2 :: '-' :: d1 :: d2 :: _ =>
    y1.isDigit && y2.isDigit && y3.isDigit && y4.isDigit &&
    m1.isDigit && m2.isDigit && d1.isDigit && d2.isDigit &&
    (let mo := (m1.toNat - 48) * 10 + (m2.toNat - 48)
     decide (1 ≤ mo) && decide (mo ≤ 12)) &&
    (let dd := (d1.toNat - 48) * 10 + (d2.toNat - 48)
     decide (1 ≤ dd) && decide (dd ≤ 31))
  | _ => false

/-! ### Concrete instances for witnesses and counterexamples -/

/-- A one-dimensional embedder: "A" ↦ [0], anything else ↦ [1]. -/
def wE : String → List ℚ := fun s => if s = "A" then [0] else [1]

/-- A distance that is 0 on equal vectors and 1/20 otherwise, so an exact
duplicate scores 1 and any other text scores exactly 0.95. -/
def wDist : List ℚ → List ℚ → ℚ := fun u v => if u = v then 0 else 1/20

def wFuzzy : String → String → Bool := fun _ _ => false

def wZeroE : String → List ℚ := fun _ => []

def wZeroDist : List ℚ → List ℚ → ℚ := fun _ _ => 0

/-- A stored agent memory with content "A". -/
def wMemA : Mem :=
  { id := "a1", text := "A", vec := [0], tags := [], source := "",
    chunkType := "agent-memory", createdAt := "2026-01-01T00:00:00+00:00" }

/-- A memory created in the final second of 2026-02-21. -/
def wMemFeb : Mem :=
  { id := "a", text := "Feb 21 memory", vec := [], tags := ["t"], source := "",
    chunkType := "agent-memory", createdAt := "2026-02-21T23:59:59.500000+00:00" }

/-- An indexed chunk of /p/a.md recorded at mtime 100. -/
def wOldChunk : Mem :=
  { id := "c1", text := "old", vec := [], tags := ["indexed"],
    source := "file:/p/a.md|a.md", chunkType := "file-indexed",
    createdAt := "2026-01-01T00:00:00+00:00", fileMtime := some 100 }

/-- The same file re-touched 0.3 seconds later with new content. -/
def wFileTouched : FileEntry :=
  { path := "/p/a.md", rel := "a.md", mtime := 100 + 3/10, content := "new stuff" }

def wIdGen : String → Nat → String := fun _ i => "id" ++ toString i

/-- A memory created mid-day on 2026-02-21. -/
def wMemMid : Mem :=
  { id := "a", text := "Feb 21 afternoon", vec := [], tags := [], source := "",
    chunkType := "agent-memory", createdAt := "2026-02-21T14:30:00+00:00" }

/-- The same file re-touched a full second later (mtime 101) with new
content, outside the 0.5s tolerance. -/
def wFileChanged : FileEntry :=
  { path := "/p/a.md", rel := "a.md", mtime := 101, content := "new stuff" }

/-! ## Theorems -/

/-! ### Generic list helpers -/

theorem find?_append_of_none {p : α → Bool} {l₁ l₂ : List α}
    (h : l₁.find? p = none) : (l₁ ++ l₂).find? p = l₂.find? p := by
  induction l₁ with
  | nil => simp
  | cons a as ih =>
    cases hp : p a with
    | true =>
      rw [List.find?_cons_of_pos _ hp] at h
      exact absurd h (by simp)
    | false =>
      rw [List.find?_cons_of_neg _ (by simp [hp])] at h
      rw [List.cons_append, List.find?_cons_of_neg _ (by simp [hp])]
      exact ih h

/-! ### Tag normalization lemmas -/

theorem normalizeTagsAux_nodup :
    ∀ (ts acc : List String), acc.Nodup → (normalizeTagsAux ts acc).Nodup := by
  intro ts
  induction ts with
  | nil => intro acc h; simpa [normalizeTagsAux] using h
  | cons t ts ih =>
    intro acc h
    rw [normalizeTagsAux]
    split
    · rename_i hc
      apply ih
      have hn : pyLower (pyStrip t) ∉ acc := by
        simp only [Bool.and_eq_true, Bool.not_eq_true'] at hc
        simpa using hc.2
      simp [List.nodup_append, h, hn]
    · exact ih acc h

theorem normalizeTagsAux_sub :
    ∀ (ts acc : List String), ∃ r, normalizeTagsAux ts acc = acc ++ r ∧
      r.Sublist (ts.map fun t => pyLower (pyStrip t)) := by
  intro ts
  induction ts with
  | nil => intro acc; exact ⟨[], by simp [normalizeTagsAux]⟩
  | cons t ts ih =>
    intro acc
    rw [normalizeTagsAux]
    split
    · obtain ⟨r, hr, hs⟩ := ih (acc ++ [pyLower (pyStrip t)])
      exact ⟨pyLower (pyStrip t) :: r, by simp [hr], List.Sublist.cons₂ _ hs⟩
    · obtain ⟨r, hr, hs⟩ := ih acc
      exact ⟨r, hr, List.Sublist.cons _ hs⟩

theorem normalizeTagsAux_mono :
    ∀ (ts acc : List String) (x : String), x ∈ acc → x ∈ normalizeTagsAux ts acc := by
  intro ts acc x hx
  obtain ⟨r, hr, -⟩ := normalizeTagsAux_sub ts acc
  rw [hr]
  exact List.mem_append_left _ hx

theorem normalizeTagsAux_complete :
    ∀ (ts acc : List String) (x : String), x ∈ ts → pyLower (pyStrip x) ≠ "" →
      pyLower (pyStrip x) ∈ normalizeTagsAux ts acc := by
  intro ts
  induction ts with
  | nil => intro acc x hx; simp at hx
  | cons t ts ih =>
    intro acc x hx hne
    rw [normalizeTagsAux]
    rcases List.mem_cons.mp hx with rfl | hx
    · split
      · exact normalizeTagsAux_mono _ _ _ (by simp)
      · rename_i hc
        have hmem : pyLower (pyStrip x) ∈ acc := by
          by_contra hmem
          exact hc (by simp [hne, hmem])
        exact normalizeTagsAux_mono _ _ _ hmem
    · split
      · exact ih _ x hx hne
      · exact ih _ x hx hne

theorem normalizeTagsAux_no_empty :
    ∀ (ts acc : List String), (∀ x ∈ acc, x ≠ "") →
      ∀ x ∈ normalizeTagsAux ts acc, x ≠ "" := by
  intro ts
  induction ts with
  | nil => intro acc h; simpa [normalizeTagsAux] using h
  | cons t ts ih =>
    intro acc h
    rw [normalizeTagsAux]
    split
    · rename_i hc
      apply ih
      intro x hx
      rcases List.mem_append.mp hx with hx | hx
      · exact h x hx
      · simp only [Bool.and_eq_true] at hc
        have : x = pyLower (pyStrip t) := by simpa using hx
        subst this
        simpa using hc.1
    · exact ih acc h

/-! ### Claim C10 -/

/-- C10: for every id (existing or absent), `QdrantBackend.update` with
`text=None` and `metadata=None` performs no existence check, no write and
raises no error, even when an embedding is supplied: the collection state is
returned unchanged, so an embedding-only update of a nonexistent id silently
succeeds and an embedding-only update of an existing record leaves its
vector unchanged. -/
theorem qdrant_update_embedding_only_noop (toUuid : String → String)
    (hybrid : Bool) (bm25 : String → List ℚ) (st : QdrantState) (id : String)
    (embedding : Option (List ℚ)) :
    qdrantUpdate toUuid hybrid bm25 st id none embedding none = .ok st := by
  simp [qdrantUpdate]

/-! ### Claim C8 -/

/-- C8: in RRF mode every returned result's distance is `1 / score` (RRF
fused scores are positive rank sums), and a higher RRF score yields a
strictly lower distance, so ascending-distance order reproduces the fusion
ranking. -/
theorem qdrant_rrf_distance_inversion (s₁ s₂ : ℚ) (h₁ : 0 < s₁) (h₂ : s₁ < s₂) :
    qdrantResultDistance true (some s₁) = some (1 / s₁) ∧
    qdrantResultDistance true (some s₂) = some (1 / s₂) ∧
    1 / s₂ < 1 / s₁ := by
  refine ⟨?_, ?_, one_div_lt_one_div_of_lt h₁ h₂⟩
  · simp [qdrantResultDistance, h₁]
  · simp [qdrantResultDistance, lt_trans h₁ h₂]

/-- Witness for C8 at scores 1 and 2. -/
theorem qdrant_rrf_distance_inversion_witness :
    qdrantResultDistance true (some 1) = some (1 / 1) ∧
    qdrantResultDistance true (some 2) = some (1 / 2) ∧
    (1 : ℚ) / 2 < 1 / 1 :=
  qdrant_rrf_distance_inversion 1 2 (by decide) (by decide)

/-! ### Claim C5 -/

/-- C5 counterexample: the claim asserts each adapter "caps that overfetch at
a fixed ceiling independent of limit"; no such ceiling exists.  For any
candidate ceiling `C`, a post-filtered query with `limit = C + 1` makes
Qdrant request `3·(C+1) > C` (ChromaDB likewise, whenever the collection is
at least that large). -/
theorem overfetch_has_no_fixed_ceiling_cex :
    ¬ ∃ C : Nat, ∀ limit total : Nat,
      qdrantFetchLimit limit true ≤ C ∧ chromaNRequested limit true total ≤ C := by
  rintro ⟨C, h⟩
  have h1 := (h (C + 1) ((C + 1) * 3)).1
  simp only [qdrantFetchLimit, if_true] at h1
  omega

/-- C5 (amended): with a post-filter present both adapters request
`3 × limit` candidates — ChromaDB additionally clamps to the collection size
(with a floor of 1), Qdrant applies no cap at all — so there is no fixed
ceiling; the returned result list never exceeds `limit`; and with no
post-filter ChromaDB requests `min(limit, total)` (floored to 1) and Qdrant
exactly `limit`. -/
theorem overfetch_amended (limit total : Nat) (hl : 1 ≤ limit)
    (ht : limit * 3 ≤ total) :
    chromaNRequested limit true total = limit * 3 ∧
    qdrantFetchLimit limit true = limit * 3 ∧
    chromaNRequested limit false total = min limit total ∧
    qdrantFetchLimit limit false = limit ∧
    (∀ (state : List Mem) (emb : List ℚ) (w : WhereClause)
       (dist : List ℚ → List ℚ → ℚ),
      (chromaQuery state emb limit w dist).length ≤ limit) ∧
    (∀ (st : QdrantState) (scoreOf : QPoint → ℚ) (rrf : Bool) (w : WhereClause),
      (qdrantQuery st scoreOf rrf limit w).length ≤ limit) := by
  refine ⟨?_, ?_, ?_, ?_, ?_, ?_⟩
  · simp only [chromaNRequested, if_true]
    rw [Nat.min_eq_left ht, if_neg (by omega)]
  · simp [qdrantFetchLimit]
  · simp only [chromaNRequested, Bool.false_eq_true, if_false]
    have hmin : min limit total ≠ 0 := by
      rcases Nat.le_total limit total with h | h
      · rw [Nat.min_eq_left h]; omega
      · rw [Nat.min_eq_right h]; omega
    rw [if_neg hmin]
  · simp [qdrantFetchLimit]
  · intro state emb w dist
    rw [chromaQuery]
    split
    · simp
    · simp only [List.length_map, List.length_take]
      omega
  · intro st scoreOf rrf w
    rw [qdrantQuery]
    simp only [List.length_take]
    omega

/-- Witness for C5 (amended) at `limit = 1`, `total = 3`. -/
theorem overfetch_amended_witness :
    chromaNRequested 1 true 3 = 1 * 3 ∧ qdrantFetchLimit 1 true = 1 * 3 ∧
    chromaNRequested 1 false 3 = min 1 3 ∧ qdrantFetchLimit 1 false = 1 :=
  ⟨(overfetch_amended 1 3 (by decide) (by decide)).1,
   (overfetch_amended 1 3 (by decide) (by decide)).2.1,
   (overfetch_amended 1 3 (by decide) (by decide)).2.2.1,
   (overfetch_amended 1 3 (by decide) (by decide)).2.2.2.1⟩

/-! ### Claim C9 -/

/-- C9: retrieving a memory by id immediately after storing it through the
tag-normalizing store path returns the same content and source, and the tags
lowercased, stripped and deduplicated with insertion order preserved:
`get_by_ids` yields exactly the stored record, and the normalized tag list
is duplicate-free, empty-free, a subsequence of the stripped-and-lowercased
inputs (order preserved) containing every nonempty normalized input tag. -/
theorem store_get_roundtrip (state : List Mem) (content : String)
    (tagsIn : List String) (source newId now : String) (emb : List ℚ)
    (hfresh : ∀ m ∈ state, m.id ≠ newId) :
    getByIds (storeMem state newId content emb (normalizeTags tagsIn) source
        "agent-memory" none now) [newId] =
      [{ id := newId, content := content, tags := normalizeTags tagsIn,
         source := source, chunkType := "agent-memory", createdAt := now,
         updatedAt := "" }] ∧
    (normalizeTags tagsIn).Nodup ∧
    (normalizeTags tagsIn).Sublist (tagsIn.map fun t => pyLower (pyStrip t)) ∧
    (∀ t ∈ tagsIn, pyLower (pyStrip t) ≠ "" → pyLower (pyStrip t) ∈ normalizeTags tagsIn) ∧
    (∀ x ∈ normalizeTags tagsIn, x ≠ "") := by
  refine ⟨?_, normalizeTagsAux_nodup tagsIn [] (by simp), ?_, ?_, ?_⟩
  · have hnone : state.find? (fun m => m.id == newId) = none := by
      rw [List.find?_eq_none]
      intro m hm
      simpa using hfresh m hm
    rw [getByIds, storeMem]
    simp only [List.isEmpty_cons, Bool.false_eq_true, if_false, backendGet]
    rw [List.filterMap_cons, List.filterMap_nil, find?_append_of_none hnone]
    simp [formatResult]
  · obtain ⟨r, hr, hs⟩ := normalizeTagsAux_sub tagsIn []
    rw [normalizeTags, hr]
    simpa using hs
  · intro t ht hne
    exact normalizeTagsAux_complete tagsIn [] t ht hne
  · exact normalizeTagsAux_no_empty tagsIn [] (by simp)

/-- Witness for C9: a concrete store-then-get round trip. -/
theorem store_get_roundtrip_witness :
    getByIds (storeMem [] "id1" "note" [] (normalizeTags [" Auth ", "auth", "", "DB"])
        "src" "agent-memory" none "2026-02-21T10:00:00+00:00") ["id1"] =
      [{ id := "id1", content := "note", tags := normalizeTags [" Auth ", "auth", "", "DB"],
         source := "src", chunkType := "agent-memory",
         createdAt := "2026-02-21T10:00:00+00:00", updatedAt := "" }] ∧
    (normalizeTags [" Auth ", "auth", "", "DB"]).Nodup ∧
    (normalizeTags [" Auth ", "auth", "", "DB"]).Sublist
      ([" Auth ", "auth", "", "DB"].map fun t => pyLower (pyStrip t)) ∧
    (∀ t ∈ [" Auth ", "auth", "", "DB"], pyLower (pyStrip t) ≠ "" →
      pyLower (pyStrip t) ∈ normalizeTags [" Auth ", "auth", "", "DB"]) ∧
    (∀ x ∈ normalizeTags [" Auth ", "auth", "", "DB"], x ≠ "") :=
  store_get_roundtrip [] "note" [" Auth ", "auth", "", "DB"] "src" "id1"
    "2026-02-21T10:00:00+00:00" [] (by simp)

/-! ### Insertion sort lemmas -/

theorem length_insSorted (le : α → α → Bool) (a : α) :
    ∀ l : List α, (insSorted le a l).length = l.length + 1 := by
  intro l
  induction l with
  | nil => rfl
  | cons b bs ih =>
    rw [insSorted]
    split
    · simp
    · simp [ih]

theorem length_insSortBy (le : α → α → Bool) :
    ∀ l : List α, (insSortBy le l).length = l.length := by
  intro l
  induction l with
  | nil => rfl
  | cons a as ih => rw [insSortBy, length_insSorted, ih, List.length_cons]

theorem mem_insSorted (le : α → α → Bool) (a : α) :
    ∀ (l : List α) (x : α), x ∈ insSorted le a l ↔ x = a ∨ x ∈ l := by
  intro l
  induction l with
  | nil => intro x; simp [insSorted]
  | cons b bs ih =>
    intro x
    rw [insSorted]
    split
    · simp
    · simp only [List.mem_cons, ih]
      tauto

theorem mem_insSortBy (le : α → α → Bool) :
    ∀ (l : List α) (x : α), x ∈ insSortBy le l ↔ x ∈ l := by
  intro l
  induction l with
  | nil => intro x; simp [insSortBy]
  | cons a as ih =>
    intro x
    rw [insSortBy, mem_insSorted]
    simp [ih]

/-! ### Search with no filters: full characterization for small collections -/

/-- With no tag/date filters and a collection of at most `limit` records,
`MemoryStore.search` over the ChromaDB model returns every record, sorted by
distance, converted to hits. -/
theorem annalSearch_nofilter (E : String → List ℚ) (dist : List ℚ → List ℚ → ℚ)
    (fuzzy : String → String → Bool) (state : List Mem) (query : String)
    (limit : Nat) (hlen : state.length ≤ limit) (hne : state ≠ []) :
    annalSearch E dist fuzzy state query limit none none none =
      .ok ((insSortBy (fun a b => decide (dist (E query) a.vec ≤ dist (E query) b.vec)) state).map
        fun m => toSearchHit (m, dist (E query) m.vec)) := by
  have hlen0 : state.length ≠ 0 := by
    intro h
    exact hne (List.length_eq_zero.mp h)
  simp only [annalSearch, searchCore]
  rw [if_neg hlen0]
  have hw : buildWhere fuzzy state none none none none none = [] := by
    simp [buildWhere]
  rw [hw, chromaQuery]
  rw [if_neg hlen0]
  simp only [chromaSplitWhere, List.isEmpty_nil, Bool.not_true, chromaNRequested,
    Bool.false_eq_true, if_false]
  have hfilter : (state.filter fun m =>
      chromaNativePass m (([], []) : List (String × MetaVal) × List (String × OpCond)).1) = state := by
    apply List.filter_eq_self.mpr
    intro m _
    simp [chromaNativePass]
  rw [hfilter]
  set le := fun a b : Mem => decide (dist (E query) a.vec ≤ dist (E query) b.vec) with hle
  have hslen : (insSortBy le state).length = state.length := length_insSortBy le state
  have hmin : min limit state.length = state.length := Nat.min_eq_right hlen
  rw [hmin, if_neg hlen0]
  rw [List.take_of_length_le (le_of_eq hslen)]
  have hpost : ((insSortBy le state).filter fun m =>
      chromaPassesPost m (([], []) : List (String × MetaVal) × List (String × OpCond)).2) =
      insSortBy le state := by
    apply List.filter_eq_self.mpr
    intro m _
    simp [chromaPassesPost]
  rw [hpost]
  rw [List.take_of_length_le (by omega : (insSortBy le state).length ≤ limit)]
  rw [List.map_map]
  rw [List.take_of_length_le (by simp [hslen]; omega)]
  rfl

/-! ### Claim C3 -/

/-- C3 counterexample: an item whose top agent-memory match scores exactly
0.95 — i.e. "at least 0.95" — is stored, not skipped: the dedup comparison
in server.py:224 is strict (`score > 0.95`).  With embedder `wE` and
distance `wDist`, storing "B" against an existing agent memory "A" finds a
single candidate with score exactly 19/20 = 0.95 and stores anyway, leaving
two records. -/
theorem store_memory_dedup_threshold_cex :
    (annalSearch wE wDist wFuzzy [wMemA] "B" 10 none none none =
      .ok [{ id := "a1", content := "A", tags := [], source := "",
             chunkType := "agent-memory", score := 1 - 1/20, distance := 1/20,
             createdAt := "2026-01-01T00:00:00+00:00", updatedAt := "" }]) ∧
    (95 : ℚ)/100 ≤ 1 - 1/20 ∧
    (storeMemoryTool wE wDist wFuzzy [wMemA] "B" [] "" "b1" "2026-01-02T00:00:00+00:00").2 =
      .stored "b1" ∧
    (storeMemoryTool wE wDist wFuzzy [wMemA] "B" [] "" "b1" "2026-01-02T00:00:00+00:00").1.length = 2 := by
  have hsearch : annalSearch wE wDist wFuzzy [wMemA] "B" 10 none none none =
      .ok [{ id := "a1", content := "A", tags := [], source := "",
             chunkType := "agent-memory", score := 1 - 1/20, distance := 1/20,
             createdAt := "2026-01-01T00:00:00+00:00", updatedAt := "" }] := by
    rw [annalSearch_nofilter wE wDist wFuzzy [wMemA] "B" 10 (by decide)
      (List.cons_ne_nil _ _)]
    rfl
  have htool : storeMemoryTool wE wDist wFuzzy [wMemA] "B" [] "" "b1" "2026-01-02T00:00:00+00:00" =
      (storeMem [wMemA] "b1" "B" (wE "B") (normalizeTags []) "" "agent-memory" none
        "2026-01-02T00:00:00+00:00", .stored "b1") := by
    simp only [storeMemoryTool, hsearch]
    rw [List.find?_cons_of_neg _ (by
      simp only [Bool.and_eq_true, beq_iff_eq, decide_eq_true_eq, not_and]
      intro _
      norm_num), List.find?_nil]
  refine ⟨hsearch, by norm_num, ?_, ?_⟩
  · rw [htool]
  · rw [htool]
    rfl

/-- C3 (amended): the `store_memory` dedup path skips an item exactly when
some retrieved agent-memory candidate scores strictly above 0.95 (leaving
the collection unchanged), and stores it when every agent-memory candidate
scores at most 0.95; in particular a second store of identical content is
skipped whenever the duplicate is among the retrieved candidates — e.g. for
a collection of at most 10 records — since its distance-0 self-match scores
1, so the content remains stored exactly once. -/
theorem store_memory_dedup_amended (E : String → List ℚ)
    (dist : List ℚ → List ℚ → ℚ) (fuzzy : String → String → Bool)
    (state : List Mem) (content : String) (tagsIn : List String)
    (source newId now : String) (hlen : state.length ≤ 10) :
    ((∃ m ∈ state, m.chunkType = "agent-memory" ∧
        (95 : ℚ)/100 < 1 - dist (E content) m.vec) →
      (storeMemoryTool E dist fuzzy state content tagsIn source newId now).1 = state ∧
      ∃ sc dup,
        (storeMemoryTool E dist fuzzy state content tagsIn source newId now).2 =
          .skipped sc dup) ∧
    ((∀ m ∈ state, m.chunkType = "agent-memory" →
        ¬((95 : ℚ)/100 < 1 - dist (E content) m.vec)) →
      storeMemoryTool E dist fuzzy state content tagsIn source newId now =
        (storeMem state newId content (E content) (normalizeTags tagsIn) source
          "agent-memory" none now, .stored newId)) ∧
    ((∃ m ∈ state, m.text = content ∧ m.chunkType = "agent-memory" ∧ m.vec = E content) →
      (∀ v, dist v v = 0) →
      (storeMemoryTool E dist fuzzy state content tagsIn source newId now).1 = state) := by
  have hskip : (∃ m ∈ state, m.chunkType = "agent-memory" ∧
      (95 : ℚ)/100 < 1 - dist (E content) m.vec) →
      (storeMemoryTool E dist fuzzy state content tagsIn source newId now).1 = state ∧
      ∃ sc dup,
        (storeMemoryTool E dist fuzzy state content tagsIn source newId now).2 =
          .skipped sc dup := by
    rintro ⟨m, hm, hty, hsc⟩
    have hne : state ≠ [] := by
      intro h
      subst h
      exact absurd hm (List.not_mem_nil m)
    have hs := annalSearch_nofilter E dist fuzzy state content 10 hlen hne
    simp only [storeMemoryTool, hs]
    split
    · exact ⟨rfl, _, _, rfl⟩
    · rename_i hfind
      exfalso
      have hnp := List.find?_eq_none.mp hfind
        (toSearchHit (m, dist (E content) m.vec))
        (List.mem_map_of_mem _ ((mem_insSortBy _ state m).mpr hm))
      apply hnp
      simp only [toSearchHit, Bool.and_eq_true, beq_iff_eq, decide_eq_true_eq]
      exact ⟨hty, hsc⟩
  refine ⟨hskip, ?_, ?_⟩
  · intro hall
    by_cases hne : state = []
    · subst hne
      simp only [storeMemoryTool, annalSearch]
      rfl
    · have hs := annalSearch_nofilter E dist fuzzy state content 10 hlen hne
      simp only [storeMemoryTool, hs]
      split
      · rename_i c hfind
        exfalso
        have hpc := List.find?_some hfind
        have hcmem := List.mem_of_find?_eq_some hfind
        obtain ⟨m, hmm, rfl⟩ := List.mem_map.mp hcmem
        have hmem : m ∈ state := (mem_insSortBy _ state m).mp hmm
        simp only [toSearchHit, Bool.and_eq_true, beq_iff_eq, decide_eq_true_eq] at hpc
        exact hall m hmem hpc.1 hpc.2
      · rfl
  · rintro ⟨m, hm, htext, hty, hvec⟩ hself
    refine (hskip ⟨m, hm, hty, ?_⟩).1
    rw [hvec, hself]
    norm_num



/-- Witness for C3 (amended): a second store of the identical content "A"
against a one-record collection holding "A" leaves the collection
unchanged. -/
theorem store_memory_dedup_amended_witness :
    (storeMemoryTool wE wDist wFuzzy [wMemA] "A" [] "" "b1" "t").1 = [wMemA] :=
  (store_memory_dedup_amended wE wDist wFuzzy [wMemA] "A" [] "" "b1" "t"
      (by decide)).2.2
    ⟨wMemA, by simp, rfl, rfl, rfl⟩ (fun v => by simp [wDist])

/-! ### Claim C1 -/

theorem find?_append_of_some {p : α → Bool} {l₁ l₂ : List α} {a : α}
    (h : l₁.find? p = some a) : (l₁ ++ l₂).find? p = some a := by
  induction l₁ with
  | nil => simp at h
  | cons b bs ih =>
    cases hp : p b with
    | true =>
      rw [List.find?_cons_of_pos _ hp] at h
      rw [List.cons_append, List.find?_cons_of_pos _ hp]
      exact h
    | false =>
      rw [List.find?_cons_of_neg _ (by simp [hp])] at h
      rw [List.cons_append, List.find?_cons_of_neg _ (by simp [hp])]
      exact ih h

/-- In a collection with duplicate-free ids, `find?` by a member's id
returns that member. -/
theorem find?_id_of_nodup :
    ∀ (state : List Mem) (x : Mem), x ∈ state → (state.map (·.id)).Nodup →
      state.find? (fun m => m.id == x.id) = some x := by
  intro state
  induction state with
  | nil => intro x hx; cases hx
  | cons a as ih =>
    intro x hx hnd
    simp only [List.map_cons, List.nodup_cons] at hnd
    rcases List.mem_cons.mp hx with rfl | hx
    · have hpa : (x.id == x.id) = true := by simp
      simp [List.find?_cons, hpa]
    · have hpa : (a.id == x.id) = false := by
        simp only [beq_eq_false_iff_ne, ne_eq]
        intro h
        apply hnd.1
        rw [h]
        exact List.mem_map_of_mem (·.id) hx
      simp only [List.find?_cons, hpa]
      exact ih x hx hnd.2

/-- C1 (spec-modelled supersession): storing B with `supersedes = A` sets A's
`superseded_by` to B's id; when the superseded id does not exist the store is
a plain insert (silent no-op on the mark, never a failure of the new store);
afterwards `browse` excludes A by default at every offset/limit,
`browse(include_superseded := true)` returns both A and B, and
`get_by_id(A).superseded_by` equals B's id. -/
theorem supersession_mark_and_browse (state : List Mem) (old : Mem)
    (bId content : String) (emb : List ℚ) (tags : List String)
    (source now : String) (limit : Nat)
    (hmem : old ∈ state) (hnd : (state.map (·.id)).Nodup)
    (hfresh : ∀ m ∈ state, m.id ≠ bId) (hlim : state.length + 1 ≤ limit) :
    ((backendGet (storeWithSupersedes state bId content emb tags source now
        (some old.id)) [old.id]).map (·.supersededBy) = [some bId]) ∧
    (∀ missing : String, (∀ m ∈ state, m.id ≠ missing) →
      storeWithSupersedes state bId content emb tags source now (some missing) =
        storeMem state bId content emb tags source "agent-memory" none now) ∧
    (∀ off lim : Nat, old.id ∉
      ((browseWithSuperseded (storeWithSupersedes state bId content emb tags
          source now (some old.id)) off lim false).1.map (·.id))) ∧
    (old.id ∈ ((browseWithSuperseded (storeWithSupersedes state bId content emb
        tags source now (some old.id)) 0 limit true).1.map (·.id))) ∧
    (bId ∈ ((browseWithSuperseded (storeWithSupersedes state bId content emb
        tags source now (some old.id)) 0 limit true).1.map (·.id))) := by
  classical
  have hmarkid : ∀ m : Mem,
      (if m.id == old.id then { m with supersededBy := some bId } else m).id = m.id := by
    intro m
    split <;> rfl
  have hfind : (state.map fun m =>
      if m.id == old.id then { m with supersededBy := some bId } else m).find?
        (fun m => m.id == old.id) = some { old with supersededBy := some bId } := by
    rw [List.find?_map]
    have hcomp : ((fun m : Mem => m.id == old.id) ∘ fun m : Mem =>
        if m.id == old.id then { m with supersededBy := some bId } else m) =
        fun m : Mem => m.id == old.id := by
      funext m
      simp only [Function.comp_apply, hmarkid]
    rw [hcomp, find?_id_of_nodup state old hmem hnd]
    simp only [Option.map_some']
    rw [if_pos (by simp)]
  have hsup : storeWithSupersedes state bId content emb tags source now (some old.id) =
      (state.map fun m =>
        if m.id == old.id then { m with supersededBy := some bId } else m) ++
      [{ id := bId, text := content, vec := emb, tags := tags, source := source,
         chunkType := "agent-memory", createdAt := now, fileMtime := none }] := rfl
  have hslen : (storeWithSupersedes state bId content emb tags source now
      (some old.id)).length = state.length + 1 := by
    rw [hsup]
    simp
  have hmarkmem : ({ old with supersededBy := some bId } : Mem) ∈
      storeWithSupersedes state bId content emb tags source now (some old.id) := by
    rw [hsup]
    apply List.mem_append_left
    refine List.mem_map.mpr ⟨old, hmem, ?_⟩
    simp
  have hnewmem : ({ id := bId, text := content, vec := emb, tags := tags,
                    source := source, chunkType := "agent-memory", createdAt := now,
                    fileMtime := none } : Mem) ∈
      storeWithSupersedes state bId content emb tags source now (some old.id) := by
    rw [hsup]
    exact List.mem_append_right _ (by simp)
  have hpage : (browseWithSuperseded (storeWithSupersedes state bId content emb
      tags source now (some old.id)) 0 limit true).1 =
      (storeWithSupersedes state bId content emb tags source now
        (some old.id)).map formatResult := by
    have hred : (browseWithSuperseded (storeWithSupersedes state bId content emb
        tags source now (some old.id)) 0 limit true).1 =
        ((storeWithSupersedes state bId content emb tags source now
          (some old.id)).take limit).map formatResult := rfl
    rw [hred, List.take_of_length_le (by omega)]
  refine ⟨?_, ?_, ?_, ?_, ?_⟩
  · rw [hsup, backendGet]
    simp only [List.filterMap_cons, List.filterMap_nil]
    rw [find?_append_of_some hfind]
    rfl
  · intro missing hmiss
    have hred : storeWithSupersedes state bId content emb tags source now (some missing) =
        storeMem (state.map fun m =>
          if m.id == missing then { m with supersededBy := some bId } else m)
          bId content emb tags source "agent-memory" none now := rfl
    rw [hred]
    have hmapid : (state.map fun m =>
        if m.id == missing then { m with supersededBy := some bId } else m) = state := by
      conv_rhs => rw [← List.map_id state]
      apply List.map_congr_left
      intro m hm
      rw [if_neg (by simp [hmiss m hm])]
      rfl
    rw [hmapid]
  · intro off lim hin
    have hred : (browseWithSuperseded (storeWithSupersedes state bId content emb
        tags source now (some old.id)) off lim false).1 =
        ((((storeWithSupersedes state bId content emb tags source now
          (some old.id)).filter fun m => m.supersededBy.isNone).drop off).take
            lim).map formatResult := rfl
    rw [hred] at hin
    obtain ⟨mo, hmo, hmoid⟩ := List.mem_map.mp hin
    obtain ⟨m, hm, rfl⟩ := List.mem_map.mp hmo
    have hmvis := List.mem_of_mem_drop (List.mem_of_mem_take hm)
    have hmem' := List.mem_filter.mp hmvis
    have hnone := hmem'.2
    have hmemb := hmem'.1
    rw [hsup] at hmemb
    rcases List.mem_append.mp hmemb with hmm | hmm
    · obtain ⟨m₀, hm₀, rfl⟩ := List.mem_map.mp hmm
      by_cases hid : (m₀.id == old.id) = true
      · rw [if_pos hid] at hnone
        simp at hnone
      · rw [if_neg hid] at hmoid
        simp only [formatResult] at hmoid
        exact (by simpa using hid : m₀.id ≠ old.id) hmoid
    · have hmeq : m = { id := bId, text := content, vec := emb, tags := tags,
                        source := source, chunkType := "agent-memory",
                        createdAt := now, fileMtime := none } := by simpa using hmm
      rw [hmeq, formatResult] at hmoid
      simp only at hmoid
      exact hfresh old hmem hmoid.symm
  · rw [hpage]
    exact List.mem_map.mpr ⟨formatResult { old with supersededBy := some bId },
      List.mem_map_of_mem formatResult hmarkmem, rfl⟩
  · rw [hpage]
    exact List.mem_map.mpr ⟨formatResult { id := bId, text := content, vec := emb,
                                           tags := tags, source := source,
                                           chunkType := "agent-memory", createdAt := now,
                                           fileMtime := none },
      List.mem_map_of_mem formatResult hnewmem, rfl⟩

/-- Witness for C1: a concrete supersession of one stored memory. -/
theorem supersession_mark_and_browse_witness :
    (backendGet (storeWithSupersedes [wMemA] "b2" "New" [] ["decision"] "" "t"
        (some wMemA.id)) [wMemA.id]).map (·.supersededBy) = [some "b2"] :=
  (supersession_mark_and_browse [wMemA] wMemA "b2" "New" [] ["decision"] "" "t" 50
    (by simp) (by simp) (by decide) (by decide)).1

/-! ### Python string comparison lemmas -/

theorem pyLtL_append_same : ∀ (p a b : List Char),
    pyLtL (p ++ a) (p ++ b) = pyLtL a b := by
  intro p
  induction p with
  | nil => intro a b; rfl
  | cons c cs ih =>
    intro a b
    simp only [List.cons_append, pyLtL, lt_self_iff_false, if_false]
    exact ih a b

theorem pyLtL_lt_of_length_eq : ∀ (a b s t : List Char), a.length = b.length →
    pyLtL a b = true → pyLtL (a ++ s) (b ++ t) = true := by
  intro a
  induction a with
  | nil =>
    intro b s t hlen h
    cases b with
    | nil => simp [pyLtL] at h
    | cons y ys => simp at hlen
  | cons x xs ih =>
    intro b s t hlen h
    cases b with
    | nil => simp at hlen
    | cons y ys =>
      simp only [pyLtL] at h
      simp only [List.cons_append, pyLtL]
      by_cases h1 : x < y
      · simp [h1]
      · simp only [h1, if_false] at h ⊢
        by_cases h2 : y < x
        · simp [h2] at h
        · simp only [h2, if_false] at h ⊢
          exact ih ys s t (by simpa using hlen) h

theorem pyLtL_prefix_strict : ∀ (a : List Char) (c : Char) (cs : List Char),
    pyLtL a (a ++ c :: cs) = true := by
  intro a c cs
  induction a with
  | nil => rfl
  | cons x xs ih =>
    simp only [List.cons_append, pyLtL, lt_self_iff_false, if_false]
    exact ih

/-! ### Singleton search with date bounds: characterization -/

/-- With no tag filter, a one-record collection and validly normalizing date
bounds, `MemoryStore.search` returns the record iff it passes the
`created_at` post-filter. -/
theorem annalSearch_single_dates (E : String → List ℚ)
    (dist : List ℚ → List ℚ → ℚ) (fuzzy : String → String → Bool) (m : Mem)
    (query : String) (limit : Nat) (after before aN bN : String)
    (hlim : 1 ≤ limit) (ha : after ≠ "") (hb : before ≠ "")
    (hna : normalizeDateBound after false = some aN)
    (hnb : normalizeDateBound before true = some bN)
    (haN : aN ≠ "") (hbN : bN ≠ "") :
    annalSearch E dist fuzzy [m] query limit none (some after) (some before) =
      .ok (if chromaPassesOp m "created_at" { gtB := some aN, ltB := some bN } then
        [toSearchHit (m, dist (E query) m.vec)] else []) := by
  simp only [annalSearch, searchCore]
  rw [if_pos ha, if_pos hb]
  simp only [hna, hnb, List.length_cons, List.length_nil]
  rw [if_neg (by omega)]
  have hw : buildWhere fuzzy [m] none none none (some aN) (some bN) =
      [("created_at", WhereVal.ops { gtB := some aN, ltB := some bN })] := by
    simp only [buildWhere]
    rw [if_pos haN, if_pos hbN]
    simp
  rw [hw, chromaQuery]
  simp only [List.length_cons, List.length_nil]
  rw [if_neg (by omega)]
  have hsplit : chromaSplitWhere
      [("created_at", WhereVal.ops { gtB := some aN, ltB := some bN })] =
      ([], [("created_at", ({ gtB := some aN, ltB := some bN } : OpCond))]) := rfl
  rw [hsplit]
  simp only [List.isEmpty_cons, Bool.not_false, chromaNRequested, if_true]
  have hmin : min (limit * 3) 1 = 1 := Nat.min_eq_right (by omega)
  rw [hmin, if_neg (by omega)]
  have hnat : List.filter (fun x => chromaNativePass x []) [m] = [m] := by
    simp [chromaNativePass]
  rw [hnat]
  have hsort : insSortBy
      (fun a b : Mem => decide (dist (E query) a.vec ≤ dist (E query) b.vec)) [m] =
      [m] := rfl
  rw [hsort]
  rw [show List.take 1 [m] = [m] from rfl]
  have hpostval : chromaPassesPost m
      [("created_at", ({ gtB := some aN, ltB := some bN } : OpCond))] =
      chromaPassesOp m "created_at" { gtB := some aN, ltB := some bN } := by
    simp [chromaPassesPost]
  cases hcp : chromaPassesOp m "created_at" { gtB := some aN, ltB := some bN } with
  | false =>
    rw [if_neg (show ¬(false = true) by decide)]
    simp [List.filter_cons, hpostval, hcp]
  | true =>
    rw [if_pos (show true = true from rfl)]
    obtain ⟨k, rfl⟩ : ∃ k, limit = k + 1 := ⟨limit - 1, by omega⟩
    simp only [List.filter_cons, List.filter_nil, hpostval, hcp, if_true,
      List.take_succ_cons, List.take_nil, List.map_cons, List.map_nil]

/-! ### Claim C6 -/

/-- C6 counterexample: a memory created in the final second of 2026-02-21
(`created_at = "2026-02-21T23:59:59.500000+00:00"`) falls on that day, yet a
search with `before = "2026-02-21"` excludes it: the bound normalizes to
`"2026-02-21T23:59:59"` and the `$lt` comparison is strict lexicographic, so
the final second of the day fails the filter. -/
theorem date_bounds_last_second_cex :
    pyStartsWith wMemFeb.createdAt "2026-02-21" = true ∧
    annalSearch wZeroE wZeroDist wFuzzy [wMemFeb] "q" 5 none none
      (some "2026-02-21") = .ok [] := by
  exact ⟨by decide, by rfl⟩

/-- C6 (amended): a date-only `after` bound normalizes to start-of-day
(`T00:00:00`) and a date-only `before` bound to `T23:59:59`, both compared
strictly: searching with `after = D` and `before = D` returns a memory whose
`created_at` is `D ++ "T" ++ hh:mm:ss ++ suffix` with a nonempty offset
suffix (as the store always produces) whenever its clock time is at least
`00:00:00` and lexicographically below `"23:59:59"` — i.e. day-granularity
bounds cover all of day D except its final second. -/
theorem date_bounds_amended (E : String → List ℚ) (dist : List ℚ → List ℚ → ℚ)
    (fuzzy : String → String → Bool) (m : Mem) (query day time sfx : String)
    (limit : Nat)
    (hshape : isoShapeOk day = true) (hnoT : day.data.contains 'T' = false)
    (hc : m.createdAt = day ++ "T" ++ time ++ sfx)
    (hlen8 : time.length = 8) (hlt : pyLt time "23:59:59" = true)
    (hge : pyLt "00:00:00" time = true ∨ (time = "00:00:00" ∧ sfx ≠ ""))
    (hlim : 1 ≤ limit) :
    normalizeDateBound day false = some (day ++ "T00:00:00") ∧
    normalizeDateBound day true = some (day ++ "T23:59:59") ∧
    annalSearch E dist fuzzy [m] query limit none (some day) (some day) =
      .ok [toSearchHit (m, dist (E query) m.vec)] := by
  have hday : day ≠ "" := by
    intro h
    rw [h] at hshape
    exact absurd hshape (by decide)
  have hn1 : normalizeDateBound day false = some (day ++ "T00:00:00") := by
    rw [normalizeDateBound, if_neg (by simp [hshape]), if_neg (by rw [hnoT]; decide)]
    rfl
  have hn2 : normalizeDateBound day true = some (day ++ "T23:59:59") := by
    rw [normalizeDateBound, if_neg (by simp [hshape]), if_neg (by rw [hnoT]; decide)]
    rfl
  have hdata1 : (day ++ "T00:00:00").data =
      (day.data ++ ['T']) ++ ("00:00:00" : String).data := by
    rw [String.data_append]
    simp [List.append_assoc]
  have hdata2 : (day ++ "T" ++ time ++ sfx).data =
      (day.data ++ ['T']) ++ (time.data ++ sfx.data) := by
    rw [String.data_append, String.data_append, String.data_append]
    simp [List.append_assoc]
  have hdata3 : (day ++ "T23:59:59").data =
      (day.data ++ ['T']) ++ ("23:59:59" : String).data := by
    rw [String.data_append]
    simp [List.append_assoc]
  have hgt : pyLt (day ++ "T00:00:00") (day ++ "T" ++ time ++ sfx) = true := by
    rw [pyLt, hdata1, hdata2, pyLtL_append_same]
    rcases hge with hge | ⟨rfl, hsfx⟩
    · have h8 : ("00:00:00" : String).data.length = time.data.length := by
        have ht8 : time.data.length = 8 := hlen8
        rw [ht8]
        rfl
      have := pyLtL_lt_of_length_eq ("00:00:00" : String).data time.data [] sfx.data
        h8 hge
      simpa using this
    · cases hsd : sfx.data with
      | nil =>
        exact absurd (String.ext (by simpa using hsd)) hsfx
      | cons c cs =>
        exact pyLtL_prefix_strict _ c cs
  have hlt2 : pyLt (day ++ "T" ++ time ++ sfx) (day ++ "T23:59:59") = true := by
    rw [pyLt, hdata2, hdata3, pyLtL_append_same]
    have h8 : time.data.length = ("23:59:59" : String).data.length := by
      have ht8 : time.data.length = 8 := hlen8
      rw [ht8]
      rfl
    have := pyLtL_lt_of_length_eq time.data ("23:59:59" : String).data sfx.data []
      h8 hlt
    simpa using this
  have hval : metaGet m "created_at" = .s m.createdAt := rfl
  have hpass : chromaPassesOp m "created_at"
      { gtB := some (day ++ "T00:00:00"), ltB := some (day ++ "T23:59:59") } = true := by
    rw [← hc] at hgt hlt2
    simp only [chromaPassesOp, hval]
    simp [hgt, hlt2]
  have haN : (day ++ "T00:00:00") ≠ "" := by
    intro h
    have := congrArg String.data h
    rw [String.data_append] at this
    simp at this
  have hbN : (day ++ "T23:59:59") ≠ "" := by
    intro h
    have := congrArg String.data h
    rw [String.data_append] at this
    simp at this
  refine ⟨hn1, hn2, ?_⟩
  rw [annalSearch_single_dates E dist fuzzy m query limit day day
    (day ++ "T00:00:00") (day ++ "T23:59:59") hlim hday hday hn1 hn2 haN hbN]
  rw [if_pos hpass]

/-- Witness for C6 (amended) at a mid-day memory on 2026-02-21. -/
theorem date_bounds_amended_witness :
    normalizeDateBound "2026-02-21" false = some ("2026-02-21" ++ "T00:00:00") ∧
    normalizeDateBound "2026-02-21" true = some ("2026-02-21" ++ "T23:59:59") ∧
    annalSearch wZeroE wZeroDist wFuzzy [wMemMid] "q" 5 none (some "2026-02-21")
      (some "2026-02-21") =
      .ok [toSearchHit (wMemMid, wZeroDist (wZeroE "q") wMemMid.vec)] :=
  date_bounds_amended wZeroE wZeroDist wFuzzy wMemMid "q" "2026-02-21" "14:30:00"
    "+00:00" 5 (by decide) (by decide) (by decide) (by decide) (by decide)
    (Or.inl (by decide)) (by decide)


/-! ### Claim C7 -/

theorem normalizeDateBound_isSome (a : String) (eod : Bool)
    (h : isoShapeOk a = true) : ∃ n, normalizeDateBound a eod = some n := by
  rw [normalizeDateBound, if_neg (by simp [h])]
  split
  · exact ⟨a, rfl⟩
  · exact ⟨a ++ (if eod then "T23:59:59" else "T00:00:00"), rfl⟩

/-- C7 counterexample: `"2026-13-99"` does not parse as an ISO-8601 date
(month 13, day 99), yet `search` accepts it — the validation is the
prefix-anchored shape regex `^\d{4}-\d{2}-\d{2}(T\d{2}:\d{2}:\d{2})?`,
which checks digit positions only — and returns an ordinary (empty) result
instead of raising. -/
theorem search_date_validation_cex :
    specIsoDateValid "2026-13-99" = false ∧
    isoShapeOk "2026-13-99" = true ∧
    annalSearch wZeroE wZeroDist wFuzzy [wMemA] "q" 5 none (some "2026-13-99")
      none = .ok [] := by
  exact ⟨by decide, by decide, by rfl⟩

/-- C7 (amended): `search` raises an invalid-argument error — the same error
value for every collection state, embedder and distance, i.e. before any
backend or embedder call — exactly for nonempty `after`/`before` values
rejected by the prefix shape regex (range-invalid but digit-shaped values
such as "2026-13-99", and empty strings, are accepted); with accepted
bounds it never raises: every search returns `.ok`, an empty collection
yields `[]`, and a singleton whose record fails the date post-filter also
yields `[]` (no-match is an empty list, not an exception). -/
theorem search_date_validation_amended :
    (∀ (E : String → List ℚ) (dist : List ℚ → List ℚ → ℚ)
       (fuzzy : String → String → Bool) (state : List Mem) (query : String)
       (limit : Nat) (tags : Option (List String)) (before : Option String)
       (a : String), a ≠ "" → isoShapeOk a = false →
       annalSearch E dist fuzzy state query limit tags (some a) before =
         .error ("Invalid date format for 'after': expected ISO 8601, got '" ++ a ++ "'")) ∧
    (∀ (E : String → List ℚ) (dist : List ℚ → List ℚ → ℚ)
       (fuzzy : String → String → Bool) (state : List Mem) (query : String)
       (limit : Nat) (tags : Option (List String)) (b : String),
       b ≠ "" → isoShapeOk b = false →
       annalSearch E dist fuzzy state query limit tags none (some b) =
         .error ("Invalid date format for 'before': expected ISO 8601, got '" ++ b ++ "'")) ∧
    (∀ (E : String → List ℚ) (dist : List ℚ → List ℚ → ℚ)
       (fuzzy : String → String → Bool) (state : List Mem) (query : String)
       (limit : Nat) (tags : Option (List String)) (after before : Option String),
       dateBoundAccepted after → dateBoundAccepted before →
       (annalSearch E dist fuzzy state query limit tags after before).isOk = true) ∧
    (∀ (E : String → List ℚ) (dist : List ℚ → List ℚ → ℚ)
       (fuzzy : String → String → Bool) (query : String) (limit : Nat)
       (tags : Option (List String)) (after before : Option String),
       dateBoundAccepted after → dateBoundAccepted before →
       annalSearch E dist fuzzy [] query limit tags after before = .ok []) ∧
    (∀ (E : String → List ℚ) (dist : List ℚ → List ℚ → ℚ)
       (fuzzy : String → String → Bool) (m : Mem) (query : String) (limit : Nat)
       (after before aN bN : String), 1 ≤ limit → after ≠ "" → before ≠ "" →
       normalizeDateBound after false = some aN →
       normalizeDateBound before true = some bN → aN ≠ "" → bN ≠ "" →
       chromaPassesOp m "created_at" { gtB := some aN, ltB := some bN } = false →
       annalSearch E dist fuzzy [m] query limit none (some after) (some before) =
         .ok []) := by
  have herrA : ∀ (E : String → List ℚ) (dist : List ℚ → List ℚ → ℚ)
      (fuzzy : String → String → Bool) (state : List Mem) (query : String)
      (limit : Nat) (tags : Option (List String)) (before : Option String)
      (a : String), a ≠ "" → isoShapeOk a = false →
      annalSearch E dist fuzzy state query limit tags (some a) before =
        .error ("Invalid date format for 'after': expected ISO 8601, got '" ++ a ++ "'") := by
    intro E dist fuzzy state query limit tags before a ha hbad
    have hnn : normalizeDateBound a false = none := by
      rw [normalizeDateBound, if_pos hbad]
    simp only [annalSearch]
    rw [if_pos ha]
    simp only [hnn]
  refine ⟨herrA, ?_, ?_, ?_, ?_⟩
  · intro E dist fuzzy state query limit tags b hb hbad
    have hnn : normalizeDateBound b true = none := by
      rw [normalizeDateBound, if_pos hbad]
    simp only [annalSearch]
    rw [if_pos hb]
    simp only [hnn]
  · intro E dist fuzzy state query limit tags after before hA hB
    rcases after with _ | a
    · rcases before with _ | b
      · rfl
      · by_cases he : b = ""
        · subst he
          rfl
        · rcases hB b rfl with rfl | hsh
          · exact absurd rfl he
          · obtain ⟨n, hn⟩ := normalizeDateBound_isSome b true hsh
            simp only [annalSearch]
            rw [if_pos he]
            simp only [hn]
            rfl
    · by_cases hea : a = ""
      · subst hea
        rcases before with _ | b
        · rfl
        · by_cases he : b = ""
          · subst he
            rfl
          · rcases hB b rfl with rfl | hsh
            · exact absurd rfl he
            · obtain ⟨n, hn⟩ := normalizeDateBound_isSome b true hsh
              simp only [annalSearch]
              rw [if_pos he]
              simp only [hn]
              rfl
      · rcases hA a rfl with rfl | hsh
        · exact absurd rfl hea
        · obtain ⟨n, hn⟩ := normalizeDateBound_isSome a false hsh
          rcases before with _ | b
          · simp only [annalSearch]
            rw [if_pos hea]
            simp only [hn]
            rfl
          · by_cases he : b = ""
            · subst he
              simp only [annalSearch]
              rw [if_pos hea]
              simp only [hn]
              rfl
            · rcases hB b rfl with rfl | hshb
              · exact absurd rfl he
              · obtain ⟨nb, hnb⟩ := normalizeDateBound_isSome b true hshb
                simp only [annalSearch]
                rw [if_pos hea, if_pos he]
                simp only [hn, hnb]
                rfl
  · intro E dist fuzzy query limit tags after before hA hB
    rcases after with _ | a
    · rcases before with _ | b
      · rfl
      · by_cases he : b = ""
        · subst he
          rfl
        · rcases hB b rfl with rfl | hsh
          · exact absurd rfl he
          · obtain ⟨n, hn⟩ := normalizeDateBound_isSome b true hsh
            simp only [annalSearch]
            rw [if_pos he]
            simp only [hn]
            rfl
    · by_cases hea : a = ""
      · subst hea
        rcases before with _ | b
        · rfl
        · by_cases he : b = ""
          · subst he
            rfl
          · rcases hB b rfl with rfl | hsh
            · exact absurd rfl he
            · obtain ⟨n, hn⟩ := normalizeDateBound_isSome b true hsh
              simp only [annalSearch]
              rw [if_pos he]
              simp only [hn]
              rfl
      · rcases hA a rfl with rfl | hsh
        · exact absurd rfl hea
        · obtain ⟨n, hn⟩ := normalizeDateBound_isSome a false hsh
          rcases before with _ | b
          · simp only [annalSearch]
            rw [if_pos hea]
            simp only [hn]
            rfl
          · by_cases he : b = ""
            · subst he
              simp only [annalSearch]
              rw [if_pos hea]
              simp only [hn]
              rfl
            · rcases hB b rfl with rfl | hshb
              · exact absurd rfl he
              · obtain ⟨nb, hnb⟩ := normalizeDateBound_isSome b true hshb
                simp only [annalSearch]
                rw [if_pos hea, if_pos he]
                simp only [hn, hnb]
                rfl
  · intro E dist fuzzy m query limit after before aN bN hlim ha hb hna hnb haN hbN hfail
    rw [annalSearch_single_dates E dist fuzzy m query limit after before aN bN
      hlim ha hb hna hnb haN hbN]
    rw [if_neg (by simp [hfail])]

/-- Witness for C7 (amended): "not-a-date" raises the exact error. -/
theorem search_date_validation_amended_witness :
    annalSearch wZeroE wZeroDist wFuzzy [] "q" 5 none (some "not-a-date") none =
      .error "Invalid date format for 'after': expected ISO 8601, got 'not-a-date'" :=
  search_date_validation_amended.1 wZeroE wZeroDist wFuzzy [] "q" 5 none none
    "not-a-date" (by decide) (by decide)

/-! ### Claim C2 -/

/-- The include pattern of the reconcile examples matches the relative path
`a.md` (evaluated through the equation lemmas of the well-founded glob
matcher). -/
theorem glob_md_amatch : matchesPatterns "a.md" ["**/*.md"] [] = true := by
  simp [matchesPatterns, globMatchPath, fnMatch, pyStartsWith, pyEndsWith, globMatchL,
    isPrefixL]

/-- Claim C2 — counterexample.  The claim says reconcile skips a file only
when its filesystem mtime *equals* the mtime last recorded for its chunks,
and otherwise re-indexes it.  The code (watcher.py:127) skips whenever
`abs(stored - current) < 0.5`: `/p/a.md` has a chunk stored at mtime 100 and
is re-touched at mtime 100.3 with new content; it matches the include
patterns and its mtime has changed, yet reconcile skips it — file count 0,
one skip, store unchanged. -/
theorem reconcile_mtime_tolerance_cex :
    matchesPatterns wFileTouched.rel ["**/*.md"] [] = true ∧
    getFileMtime [wOldChunk] ("file:" ++ wFileTouched.path) = some 100 ∧
    wFileTouched.mtime ≠ 100 ∧
    reconcileModel ["**/*.md"] [] wIdGen wZeroE "now" [wOldChunk] [wFileTouched] =
      ⟨[wOldChunk], 0, 1⟩ := by
  refine ⟨glob_md_amatch, rfl, by norm_num [wFileTouched], ?_⟩
  show reconcileStep ["**/*.md"] [] wIdGen wZeroE "now" ⟨[wOldChunk], 0, 0⟩ wFileTouched =
    ⟨[wOldChunk], 0, 1⟩
  have hm : matchesPatterns wFileTouched.rel ["**/*.md"] [] = true := glob_md_amatch
  have hg : getFileMtime [wOldChunk] ("file:" ++ wFileTouched.path) = some 100 := rfl
  have hd : decide (|(100 : ℚ) - wFileTouched.mtime| < 1/2) = true := by
    rw [decide_eq_true_eq, abs_lt]
    constructor <;> norm_num [wFileTouched]
  unfold reconcileStep
  rw [if_pos hm]
  simp only [hg, hd]
  simp

/-- Claim C2 — amended.  For a single walked file: (1) a file matching no
include pattern (or matching an exclude) leaves the store and both counters
untouched; (2) a file whose stored chunk mtime is within 0.5 seconds of the
filesystem mtime is skipped — store unchanged, not counted; (3) otherwise
(no stored mtime, or a difference of at least 0.5 seconds) the file is
counted once and re-indexed through `index_file`, and when its content is
not blank every chunk of this file found in the resulting store is freshly
built — it carries the new mtime and the reconcile timestamp — while every
record of a different source survives. -/
theorem reconcile_tolerance_amended (patterns excludes : List String)
    (mkId : String → Nat → String) (E : String → List ℚ) (now : String)
    (state : List Mem) (f : FileEntry) :
    (matchesPatterns f.rel patterns excludes = false →
      reconcileModel patterns excludes mkId E now state [f] = ⟨state, 0, 0⟩) ∧
    (∀ sd, matchesPatterns f.rel patterns excludes = true →
      getFileMtime state ("file:" ++ f.path) = some sd → |sd - f.mtime| < 1/2 →
      reconcileModel patterns excludes mkId E now state [f] = ⟨state, 0, 1⟩) ∧
    (matchesPatterns f.rel patterns excludes = true →
      (∀ sd, getFileMtime state ("file:" ++ f.path) = some sd → 1/2 ≤ |sd - f.mtime|) →
      reconcileModel patterns excludes mkId E now state [f] =
        ⟨(indexFile (mkId f.path) E now state f.path f.content f.mtime).1, 1, 0⟩ ∧
      (pyStrip f.content ≠ "" →
        (∀ m ∈ (indexFile (mkId f.path) E now state f.path f.content f.mtime).1,
          pyStartsWith m.source ("file:" ++ f.path) = true →
            m.fileMtime = some f.mtime ∧ m.createdAt = now) ∧
        (∀ m ∈ state, pyStartsWith m.source ("file:" ++ f.path) = false →
          m ∈ (indexFile (mkId f.path) E now state f.path f.content f.mtime).1))) := by
  refine ⟨?_, ?_, ?_⟩
  · intro h
    show reconcileStep patterns excludes mkId E now ⟨state, 0, 0⟩ f = ⟨state, 0, 0⟩
    unfold reconcileStep
    rw [if_neg (show ¬(matchesPatterns f.rel patterns excludes = true) by simp [h])]
  · intro sd h hm hlt
    show reconcileStep patterns excludes mkId E now ⟨state, 0, 0⟩ f = ⟨state, 0, 1⟩
    unfold reconcileStep
    rw [if_pos h]
    simp only [hm, decide_eq_true hlt]
    simp
  · intro h hge
    have hstep : reconcileModel patterns excludes mkId E now state [f] =
        ⟨(indexFile (mkId f.path) E now state f.path f.content f.mtime).1, 1, 0⟩ := by
      show reconcileStep patterns excludes mkId E now ⟨state, 0, 0⟩ f = _
      unfold reconcileStep
      rw [if_pos h]
      cases hm : getFileMtime state ("file:" ++ f.path) with
      | none =>
        simp only [hm]
        rw [if_neg (show ¬(false = true) by decide)]
      | some sd =>
        have hd : decide (|sd - f.mtime| < 1/2) = false :=
          decide_eq_false (not_lt.2 (hge sd hm))
        simp only [hm, hd]
        rw [if_neg (show ¬(false = true) by decide)]
    refine ⟨hstep, ?_⟩
    intro hnb
    have hidx : ∃ news : List Mem,
        (indexFile (mkId f.path) E now state f.path f.content f.mtime).1 =
          deleteBySource state ("file:" ++ f.path) ++ news ∧
        ∀ m ∈ news, m.fileMtime = some f.mtime ∧ m.createdAt = now := by
      unfold indexFile
      rw [if_neg hnb]
      refine ⟨_, rfl, ?_⟩
      intro m hmem
      simp only [List.mem_map] at hmem
      obtain ⟨ci, _, rfl⟩ := hmem
      exact ⟨rfl, rfl⟩
    obtain ⟨news, heq, hnews⟩ := hidx
    constructor
    · intro m hmem hpre
      rw [heq] at hmem
      rcases List.mem_append.1 hmem with hmem | hmem
      · unfold deleteBySource at hmem
        have hfl := (List.mem_filter.1 hmem).2
        rw [hpre] at hfl
        exact absurd hfl (by decide)
      · exact hnews m hmem
    · intro m hmem hnpre
      rw [heq]
      apply List.mem_append_left
      unfold deleteBySource
      exact List.mem_filter.2 ⟨hmem, by rw [hnpre]; rfl⟩

/-- Witness for C2 (amended): the file re-touched a full second later (a
difference of 1 ≥ 0.5) is counted and re-indexed. -/
theorem reconcile_tolerance_amended_witness :
    reconcileModel ["**/*.md"] [] wIdGen wZeroE "now" [wOldChunk] [wFileChanged] =
      ⟨(indexFile (wIdGen wFileChanged.path) wZeroE "now" [wOldChunk] wFileChanged.path
        wFileChanged.content wFileChanged.mtime).1, 1, 0⟩ :=
  ((reconcile_tolerance_amended ["**/*.md"] [] wIdGen wZeroE "now" [wOldChunk]
      wFileChanged).2.2 glob_md_amatch (fun sd hsd => by
    have h100 : getFileMtime [wOldChunk] ("file:" ++ wFileChanged.path) = some 100 := rfl
    rw [h100] at hsd
    injection hsd with hs
    rw [← hs]
    rw [show (100 : ℚ) - wFileChanged.mtime = -1 by norm_num [wFileChanged], abs_neg,
      abs_one]
    norm_num)).1

/-! ### Claim C4 -/

/-- Once the batch count covers the whole list, the batched
filter-and-append loop equals a plain filter of the whole list. -/
theorem chunkFilter_eq_filter (p : α → Bool) (step : Nat) :
    ∀ (n : Nat) (l : List α), l.length ≤ n * step →
      chunkFilter p step n l = l.filter p := by
  intro n
  induction n with
  | zero =>
    intro l hl
    have hnil : l = [] := by simpa using hl
    subst hnil
    rfl
  | succ n ih =>
    intro l hl
    show (l.take step).filter p ++ chunkFilter p step n (l.drop step) = l.filter p
    rw [ih (l.drop step) (by
      rw [List.length_drop]
      have hsm : (n + 1) * step = n * step + step := Nat.succ_mul n step
      omega)]
    rw [← List.filter_append, List.take_append_drop]

/-- Ceiling division covers the collection: `total ≤ ⌈total/step⌉ * step`
for positive `step`, so the batched loops walk every record. -/
theorem le_numBatches_mul (total step : Nat) (h : 0 < step) :
    total ≤ numBatches total step * step := by
  rcases Nat.eq_zero_or_pos total with h0 | h0
  · simp [h0]
  · unfold numBatches
    have h2 : (total - 1 + step) / step = (total - 1) / step + 1 :=
      Nat.add_div_right _ h
    have h3 : total - 1 + step ≤ total + step - 1 := by omega
    have h1 : (total - 1) / step < (total + step - 1) / step := by
      calc (total - 1) / step < (total - 1) / step + 1 := Nat.lt_succ_self _
        _ = (total - 1 + step) / step := h2.symm
        _ ≤ (total + step - 1) / step := Nat.div_le_div_right h3
    have h4 := (Nat.div_lt_iff_lt_mul h).1 h1
    generalize (total + step - 1) / step * step = X at h4 ⊢
    omega

/-- The pages `[k·limit, (k+1)·limit)` for `k < n` concatenate back to the
whole list once `n` pages cover its length. -/
theorem pages_flatten (limit : Nat) :
    ∀ (n : Nat) (l : List α), l.length ≤ n * limit →
      ((List.range n).map fun k => (l.drop (k * limit)).take limit).flatten = l := by
  intro n
  induction n with
  | zero =>
    intro l hl
    have hnil : l = [] := by simpa using hl
    subst hnil
    rfl
  | succ n ih =>
    intro l hl
    rw [List.range_succ_eq_map, List.map_cons, List.flatten_cons, List.map_map]
    have hcomp : ((fun k => (l.drop (k * limit)).take limit) ∘ Nat.succ)
        = fun k => ((l.drop limit).drop (k * limit)).take limit := by
      funext k
      simp only [Function.comp_apply, List.drop_drop]
      rw [show Nat.succ k * limit = limit + k * limit by
        rw [Nat.succ_mul, Nat.add_comm]]
    have hrec :
        ((List.range n).map fun k => ((l.drop limit).drop (k * limit)).take limit).flatten
        = l.drop limit := ih (l.drop limit) (by
      rw [List.length_drop]
      have hsm : (n + 1) * limit = n * limit + limit := Nat.succ_mul n limit
      omega)
    rw [hcomp, hrec]
    simp only [Nat.zero_mul, List.drop_zero]
    exact List.take_append_drop limit l

/-- Claim C4.  Under a where-clause with a post-filter operator: ChromaDB's
`scan` walks the natively filtered collection in batches of 5000 and returns
the slice `[offset, offset+limit)` of the fully filtered sequence `F`
together with the *filtered* total `F.length` (not the backend's raw count);
Qdrant's post-filter scroll does the same in pages of 100 over its filtered
sequence `G`; consequently the `browse` pages at offsets `0, limit, 2·limit,
…` are exactly the formatted pages of `F`, pairwise disjoint in ids whenever
the collection's filtered ids are duplicate-free, and their union across all
pages has size equal to the reported total. -/
theorem scan_filtered_total_and_pagination
    (state : List Mem) (st : QdrantState) (w : WhereClause)
    (fuzzy : String → String → Bool) (ct sp : Option String)
    (tg : Option (List String)) (offset limit n : Nat)
    (F : List Mem) (G : List QRes)
    (hw : buildWhere fuzzy state ct sp tg none none = w)
    (hpost : (chromaSplitWhere w).2 ≠ [])
    (hF : F = (state.filter fun m => chromaNativePass m (chromaSplitWhere w).1).filter
      fun m => chromaPassesPost m (chromaSplitWhere w).2)
    (hG : G = ((st.points.filter fun p => qdrantNativePass p (qdrantSplitWhere w).1).map
      fun p => qdrantToResult false none p).filter
        fun r => qdrantMatchesPost r (qdrantSplitWhere w).2)
    (hne : state ≠ []) (hn : F.length ≤ n * limit)
    (hnodup : (F.map Mem.id).Nodup) :
    chromaScan state offset limit w = ((F.drop offset).take limit, F.length) ∧
    qdrantScanPost st offset limit w = ((G.drop offset).take limit, G.length) ∧
    ((List.range n).map fun k =>
      (annalBrowse fuzzy state (k * limit) limit ct sp tg).1).flatten
      = F.map formatResult ∧
    ((List.range n).map fun k =>
      (annalBrowse fuzzy state (k * limit) limit ct sp tg).1.map
        MemOut.id).Pairwise List.Disjoint ∧
    (((List.range n).map fun k =>
      (annalBrowse fuzzy state (k * limit) limit ct sp tg).1).flatten).length
      = (annalBrowse fuzzy state offset limit ct sp tg).2 := by
  subst hF hG
  have h0 : ¬ state.length = 0 := fun h => hne (List.length_eq_zero.1 h)
  have hie : (chromaSplitWhere w).2.isEmpty = false := by
    cases hsp : (chromaSplitWhere w).2 with
    | nil => exact absurd hsp hpost
    | cons a l => rfl
  have hA : ∀ off lim, chromaScan state off lim w =
      ((((state.filter fun m => chromaNativePass m (chromaSplitWhere w).1).filter
        fun m => chromaPassesPost m (chromaSplitWhere w).2).drop off).take lim,
       ((state.filter fun m => chromaNativePass m (chromaSplitWhere w).1).filter
        fun m => chromaPassesPost m (chromaSplitWhere w).2).length) := by
    intro off lim
    simp only [chromaScan, hie]
    rw [if_neg h0]
    rw [if_neg (show ¬(false = true) by decide)]
    rw [chunkFilter_eq_filter (fun m => chromaPassesPost m (chromaSplitWhere w).2) 5000
      (numBatches state.length 5000)
      (state.filter fun m => chromaNativePass m (chromaSplitWhere w).1)
      (le_trans (List.length_filter_le _ _)
        (le_numBatches_mul state.length 5000 (by norm_num)))]
  have hB : qdrantScanPost st offset limit w =
      (((((st.points.filter fun p => qdrantNativePass p (qdrantSplitWhere w).1).map
        fun p => qdrantToResult false none p).filter
          fun r => qdrantMatchesPost r (qdrantSplitWhere w).2).drop offset).take limit,
       (((st.points.filter fun p => qdrantNativePass p (qdrantSplitWhere w).1).map
        fun p => qdrantToResult false none p).filter
          fun r => qdrantMatchesPost r (qdrantSplitWhere w).2).length) := by
    simp only [qdrantScanPost]
    rw [chunkFilter_eq_filter (fun r => qdrantMatchesPost r (qdrantSplitWhere w).2) 100
      (numBatches (st.points.filter fun p => qdrantNativePass p (qdrantSplitWhere w).1).length 100)
      ((st.points.filter fun p => qdrantNativePass p (qdrantSplitWhere w).1).map
        fun p => qdrantToResult false none p)
      (by rw [List.length_map]; exact le_numBatches_mul _ 100 (by norm_num))]
  have hpage : ∀ k, (annalBrowse fuzzy state (k * limit) limit ct sp tg).1 =
      ((((state.filter fun m => chromaNativePass m (chromaSplitWhere w).1).filter
        fun m => chromaPassesPost m (chromaSplitWhere w).2).drop (k * limit)).take
          limit).map formatResult := by
    intro k
    simp only [annalBrowse]
    rw [if_neg h0, hw, hA (k * limit) limit]
  have h3 : ((List.range n).map fun k =>
      (annalBrowse fuzzy state (k * limit) limit ct sp tg).1).flatten
      = ((state.filter fun m => chromaNativePass m (chromaSplitWhere w).1).filter
        fun m => chromaPassesPost m (chromaSplitWhere w).2).map formatResult := by
    have he : ((List.range n).map fun k =>
        (annalBrowse fuzzy state (k * limit) limit ct sp tg).1)
        = (List.range n).map fun k =>
          (((((state.filter fun m => chromaNativePass m (chromaSplitWhere w).1).filter
            fun m => chromaPassesPost m (chromaSplitWhere w).2).map formatResult).drop
              (k * limit)).take limit) := by
      apply List.map_congr_left
      intro k _
      rw [hpage k, List.map_take, List.map_drop]
    rw [he, pages_flatten limit n _ (by rw [List.length_map]; exact hn)]
  refine ⟨hA offset limit, hB, h3, ?_, ?_⟩
  · have hid : ((List.range n).map fun k =>
        (annalBrowse fuzzy state (k * limit) limit ct sp tg).1.map MemOut.id)
        = (List.range n).map fun k =>
          (((((state.filter fun m => chromaNativePass m (chromaSplitWhere w).1).filter
            fun m => chromaPassesPost m (chromaSplitWhere w).2).map Mem.id).drop
              (k * limit)).take limit) := by
      apply List.map_congr_left
      intro k _
      rw [hpage k, List.map_map]
      rw [show (MemOut.id ∘ formatResult) = Mem.id from rfl]
      rw [List.map_take, List.map_drop]
    rw [hid]
    have hfl := pages_flatten limit n
      (((state.filter fun m => chromaNativePass m (chromaSplitWhere w).1).filter
        fun m => chromaPassesPost m (chromaSplitWhere w).2).map Mem.id)
      (by rw [List.length_map]; exact hn)
    exact (List.nodup_flatten.1 (by rw [hfl]; exact hnodup)).2
  · rw [h3, List.length_map]
    have ht : (annalBrowse fuzzy state offset limit ct sp tg).2 =
        ((state.filter fun m => chromaNativePass m (chromaSplitWhere w).1).filter
          fun m => chromaPassesPost m (chromaSplitWhere w).2).length := by
      simp only [annalBrowse]
      rw [if_neg h0, hw, hA offset limit]
    rw [ht]

/-- Witness for C4: a two-record collection with a `source` prefix
post-filter — the scan returns the one matching record with filtered total
1 and the single browse page is that record. -/
theorem scan_filtered_total_and_pagination_witness :
    chromaScan [wMemA, wOldChunk] 0 1
      (buildWhere wFuzzy [wMemA, wOldChunk] none (some "file:") none none none) =
      ([wOldChunk], 1) ∧
    qdrantScanPost ⟨[]⟩ 0 1
      (buildWhere wFuzzy [wMemA, wOldChunk] none (some "file:") none none none) =
      ([], 0) ∧
    ((List.range 1).map fun k =>
      (annalBrowse wFuzzy [wMemA, wOldChunk] (k * 1) 1 none (some "file:") none).1.map
        MemOut.id).Pairwise List.Disjoint := by
  have h := scan_filtered_total_and_pagination [wMemA, wOldChunk] ⟨[]⟩
    (buildWhere wFuzzy [wMemA, wOldChunk] none (some "file:") none none none)
    wFuzzy none (some "file:") none 0 1 1 [wOldChunk] [] rfl
    (by decide) (by decide) rfl (by decide) (by decide) (by decide)
  exact ⟨h.1, h.2.1, h.2.2.2.1⟩


end Annal
